import Mathlib

/-!
Verification of the grammar-to-parser compiler (winnow-grammar repository).

This file shallowly embeds the parts of the repository that the claims
C1..C10 are about:

* the runtime support object of `src/vendor/grammar-kit/src/lib.rs`
  (`ScopeStack`, `ParseContext`, `record_error`, `attempt`, `peek`,
  `not_check`, `attempt_recover`, `skip_until`);
* the control flow synthesized by the syn backend
  (`src/vendor/syn-grammar-macros/src/codegen/rule.rs` and
  `.../codegen/pattern.rs`): ordered-variant dispatch with the
  unique-first-token optimization, the left-recursion seed/loop rewriting,
  and the Repeat/Plus loops;
* the static analysis of `src/vendor/syn-grammar-model/src/analysis.rs`
  (`is_nullable`, `get_simple_peek`, `get_peek_token_string`, `find_cut`,
  `split_left_recursive`);
* the semantic validator of `src/syn-grammar1-bug-patch.rs` (which extends
  `src/vendor/syn-grammar-model/src/validator.rs` with the cycle and
  shadowing stages).

Modelling conventions, chosen once and used throughout:

* syn's token streams are modelled by `Stream`: a list of remaining tokens
  plus a cursor position; the span of a token is its cursor index, and the
  span of a stream (`input.span()` in Rust) is its current position.
  A literal is modelled as a single symbolic token (the multi-token
  splitting of `resolve_token_types` is orthogonal to every claim).
* A Rust parser function `fn(ParseStream, &mut ParseContext) -> Result<T>`
  becomes a pure function `Parser α := Stream → ParseContext → PResult α ×
  Stream × ParseContext`; `input.fork()` / `advance_to` become value
  copying, and the `?` operator becomes `pseq`.
* Rust `Vec` stacks (scopes, rule stack) are modelled as Lean lists with
  the top of the stack at the head; a `HashSet<String>` scope is a
  duplicate-free list.
* Unbounded `loop`/`while` constructs take an explicit fuel argument;
  running out of fuel yields a distinguished "fuel exhausted" error, so a
  theorem concluding success is never satisfied by fuel exhaustion.
-/

namespace WinnowGrammar

/-- A token of the modelled token stream: an integer literal or a symbol
(keyword, punctuation, delimiter). -/
inductive Tok where
  | num (n : Int)
  | sym (s : String)
deriving DecidableEq, Repr

/-- The input stream: cursor position and remaining tokens.  `pos` models
both `input.cursor()` and the start of `input.span()`. -/
structure Stream where
  pos : Nat
  toks : List Tok
deriving DecidableEq, Repr

/-- A parse error: a span (cursor index) and a message (models `syn::Error`). -/
structure PError where
  span : Nat
  msg : String
deriving DecidableEq, Repr

/-- `ErrorState` of grammar-kit: the stored best error with its depth flag. -/
structure ErrorState where
  err : PError
  isDeep : Bool
deriving DecidableEq, Repr

/-- `ScopeStack`: a stack of name sets; head of the list is the innermost
scope (the last element of the Rust `Vec`). -/
structure ScopeStack where
  scopes : List (List String)
deriving DecidableEq, Repr

namespace ScopeStack

/-- `ScopeStack::new`: one empty scope. -/
def new : ScopeStack := ⟨[[]]⟩

/-- `enter_scope`: push a fresh empty scope. -/
def enterScope (s : ScopeStack) : ScopeStack := ⟨[] :: s.scopes⟩

/-- `exit_scope`: pop the innermost scope, but only when more than one
scope remains. -/
def exitScope (s : ScopeStack) : ScopeStack :=
  if s.scopes.length > 1 then ⟨s.scopes.tail⟩ else s

/-- `define`: insert the name into the innermost scope (`last_mut` of the
Rust `Vec` is the head here); a `HashSet` insert is insert-if-absent. -/
def define (s : ScopeStack) (name : String) : ScopeStack :=
  match s.scopes with
  | [] => s
  | top :: rest => ⟨(if name ∈ top then top else name :: top) :: rest⟩

/-- `is_defined`: search every scope from the innermost outwards. -/
def isDefined (s : ScopeStack) (name : String) : Bool :=
  s.scopes.any (fun scope => name ∈ scope)

end ScopeStack

/-- `ParseContext` of grammar-kit: fatal flag, best error, scope stack,
rule-name stack (head = innermost rule) and last consumed span. -/
structure ParseContext where
  isFatal : Bool
  bestError : Option ErrorState
  scopes : ScopeStack
  ruleStack : List String
  lastSpan : Option Nat
deriving DecidableEq, Repr

namespace ParseContext

/-- `ParseContext::new`. -/
def new : ParseContext :=
  { isFatal := false, bestError := none, scopes := ScopeStack.new,
    ruleStack := [], lastSpan := none }

/-- `set_fatal`. -/
def setFatal (ctx : ParseContext) (fatal : Bool) : ParseContext :=
  { ctx with isFatal := fatal }

/-- `enter_rule`: push the rule name. -/
def enterRule (ctx : ParseContext) (name : String) : ParseContext :=
  { ctx with ruleStack := name :: ctx.ruleStack }

/-- `exit_rule`: pop the rule name. -/
def exitRule (ctx : ParseContext) : ParseContext :=
  { ctx with ruleStack := ctx.ruleStack.tail }

/-- The enrichment step of `record_error`: prepend the innermost rule name
(`rule_stack.last()`) to the message when a rule is active. -/
def enrichWithRule (ctx : ParseContext) (err : PError) : PError :=
  match ctx.ruleStack.head? with
  | some ruleName =>
      { span := err.span, msg := "Error in rule '" ++ ruleName ++ "': " ++ err.msg }
  | none => err

/-- `record_error`: store the error if it is "deeper" than the current
best.  An error is deep when its span differs from the span at the start
of the attempt; the error is first enriched with the innermost rule name. -/
def recordError (ctx : ParseContext) (err : PError) (startSpan : Nat) : ParseContext :=
  let isDeep : Bool := err.span ≠ startSpan
  let err := ctx.enrichWithRule err
  match ctx.bestError with
  | none => { ctx with bestError := some { err := err, isDeep := isDeep } }
  | some existing =>
      if isDeep && !existing.isDeep then
        { ctx with bestError := some { err := err, isDeep := isDeep } }
      else ctx

/-- `record_span`. -/
def recordSpan (ctx : ParseContext) (span : Nat) : ParseContext :=
  { ctx with lastSpan := some span }

end ParseContext

/-- Result of a parser call (`syn::Result<T>`). -/
abbrev PResult (α : Type) := Except PError α

/-- A Rust parser `fn(ParseStream, &mut ParseContext) -> Result<T>` as a
pure state-passing function. -/
abbrev Parser (α : Type) := Stream → ParseContext → PResult α × Stream × ParseContext

/-- Sequencing with the `?` operator: on error, propagate error, stream
and context unchanged beyond what the first parser did. -/
def pseq {α β : Type} (p : Parser α) (f : α → Parser β) : Parser β :=
  fun input ctx =>
    match p input ctx with
    | (.ok v, s, c) => f v s c
    | (.error e, s, c) => (.error e, s, c)

/-- A parser returning a constant without touching stream or context. -/
def pureP {α : Type} (v : α) : Parser α := fun input ctx => (.ok v, input, ctx)

/-- `rt::attempt` (grammar-kit lib.rs): fork, clear the fatal flag, run
the body; on success advance and restore the caller's fatal flag; on
fatal failure restore the snapshot, leave the fatal flag raised and
propagate; on non-fatal failure restore the caller's fatal flag, record
the error as a deepening candidate (before restoring the snapshot, so the
inner rule context enriches it), restore the snapshot, and signal
no-match. -/
def attempt {α : Type} (parser : Parser α) (input : Stream) (ctx : ParseContext) :
    PResult (Option α) × Stream × ParseContext :=
  let wasFatal := ctx.isFatal
  let ctx0 := ctx.setFatal false
  let scopesSnapshot := ctx0.scopes
  let ruleStackSnapshot := ctx0.ruleStack
  let lastSpanSnapshot := ctx0.lastSpan
  let startSpan := input.pos
  match parser input ctx0 with
  | (.ok val, fork, ctx1) => (.ok (some val), fork, ctx1.setFatal wasFatal)
  | (.error e, _, ctx1) =>
      if ctx1.isFatal then
        (.error e, input,
          { ctx1 with scopes := scopesSnapshot, ruleStack := ruleStackSnapshot,
                      lastSpan := lastSpanSnapshot, isFatal := true })
      else
        let ctx2 := ctx1.setFatal wasFatal
        let ctx3 := ctx2.recordError e startSpan
        (.ok none, input,
          { ctx3 with scopes := scopesSnapshot, ruleStack := ruleStackSnapshot,
                      lastSpan := lastSpanSnapshot })

/-- `rt::peek` (grammar-kit lib.rs): run the body on a fork, never
advance, always restore scopes, rule stack and last span (the fatal flag
is not touched by this operation). -/
def specPeek {α : Type} (parser : Parser α) (input : Stream) (ctx : ParseContext) :
    PResult α × Stream × ParseContext :=
  let scopesSnapshot := ctx.scopes
  let ruleStackSnapshot := ctx.ruleStack
  let lastSpanSnapshot := ctx.lastSpan
  match parser input ctx with
  | (res, _, ctx1) =>
      (res, input,
        { ctx1 with scopes := scopesSnapshot, ruleStack := ruleStackSnapshot,
                    lastSpan := lastSpanSnapshot })

/-- `rt::not_check` (grammar-kit lib.rs): run the body on a fork with the
fatal flag cleared; restore the fatal flag and the snapshot regardless of
the outcome; invert the result; never advance. -/
def notCheck {α : Type} (parser : Parser α) (input : Stream) (ctx : ParseContext) :
    PResult Unit × Stream × ParseContext :=
  let scopesSnapshot := ctx.scopes
  let ruleStackSnapshot := ctx.ruleStack
  let lastSpanSnapshot := ctx.lastSpan
  let wasFatal := ctx.isFatal
  let ctx0 := ctx.setFatal false
  match parser input ctx0 with
  | (res, _, ctx1) =>
      let ctx2 :=
        { ctx1 with isFatal := wasFatal, scopes := scopesSnapshot,
                    ruleStack := ruleStackSnapshot, lastSpan := lastSpanSnapshot }
      match res with
      | .ok _ => (.error { span := input.pos, msg := "unexpected match" }, input, ctx2)
      | .error _ => (.ok (), input, ctx2)

/-- `rt::attempt_recover` (grammar-kit lib.rs): like `attempt` but the
fatal flag raised inside the body is always discarded (recovery swallows
failures), and failure always restores the snapshot after recording. -/
def attemptRecover {α : Type} (parser : Parser α) (input : Stream) (ctx : ParseContext) :
    PResult (Option α) × Stream × ParseContext :=
  let wasFatal := ctx.isFatal
  let ctx0 := ctx.setFatal false
  let scopesSnapshot := ctx0.scopes
  let ruleStackSnapshot := ctx0.ruleStack
  let lastSpanSnapshot := ctx0.lastSpan
  let startSpan := input.pos
  match parser input ctx0 with
  | (.ok val, fork, ctx1) => (.ok (some val), fork, ctx1.setFatal wasFatal)
  | (.error e, _, ctx1) =>
      let ctx2 := ctx1.setFatal wasFatal
      let ctx3 := ctx2.recordError e startSpan
      (.ok none, input,
        { ctx3 with scopes := scopesSnapshot, ruleStack := ruleStackSnapshot,
                    lastSpan := lastSpanSnapshot })

/-- `rt::skip_until`: consume one token at a time while the stream is
nonempty and the predicate does not hold. -/
def skipUntilGo (pred : Stream → Bool) : Nat → List Tok → Stream
  | pos, [] => ⟨pos, []⟩
  | pos, t :: ts =>
      if pred ⟨pos, t :: ts⟩ then ⟨pos, t :: ts⟩
      else skipUntilGo pred (pos + 1) ts
termination_by structural pos ts => ts

/-- `rt::skip_until` over a stream. -/
def skipUntil (pred : Stream → Bool) (s : Stream) : Stream :=
  skipUntilGo pred s.pos s.toks

/-- The generated code for a literal pattern: parse one token equal to the
literal and record its span. -/
def litP (s : String) : Parser Unit := fun input ctx =>
  match input.toks with
  | Tok.sym t :: rest =>
      if t = s then
        (.ok (), { pos := input.pos + 1, toks := rest }, ctx.recordSpan input.pos)
      else
        (.error { span := input.pos, msg := "expected '" ++ s ++ "'" }, input, ctx)
  | _ => (.error { span := input.pos, msg := "expected '" ++ s ++ "'" }, input, ctx)

/-- The built-in `integer` primitive: parse one numeric token and record
its span. -/
def intP : Parser Int := fun input ctx =>
  match input.toks with
  | Tok.num n :: rest =>
      (.ok n, { pos := input.pos + 1, toks := rest }, ctx.recordSpan input.pos)
  | _ => (.error { span := input.pos, msg := "expected integer" }, input, ctx)

/-- `input.peek(T)` for the leading token of a literal or delimiter: true
when the next token is the given symbol. -/
def streamPeek (input : Stream) (s : String) : Bool :=
  match input.toks with
  | Tok.sym t :: _ => t = s
  | _ => false

/-- One mutating operation on a `ScopeStack` (`is_defined` is read-only
and cannot change the stack, so it needs no constructor). -/
inductive ScopeOp where
  | enter
  | leave
  | define (name : String)
deriving DecidableEq, Repr

/-- Apply one operation. -/
def ScopeStack.applyOp (s : ScopeStack) : ScopeOp → ScopeStack
  | .enter => s.enterScope
  | .leave => s.exitScope
  | .define n => s.define n

/-- Apply a sequence of operations, oldest first. -/
def ScopeStack.runOps (s : ScopeStack) (ops : List ScopeOp) : ScopeStack :=
  ops.foldl ScopeStack.applyOp s

/-!
### Left-recursion elimination (codegen/rule.rs, `generate_rule` and
`generate_recursive_loop_body`)

A recursive-tail variant compiles to an arm: an optional peek guard for
the first pattern of the tail, and a body that clones the current seed
into the leading binding and runs the remainder of the variant.  The
generated `loop` tries the arms in order; a fatal attempt error
propagates, a success without cursor advance raises the
infinite-loop-detected error, a success with advance replaces the seed
and restarts from the first arm, and when no arm matches the loop exits
with the current seed.
-/

/-- One compiled recursive-tail variant: the simple-peek guard derived
from the first pattern of the tail (if any) and the tail body as a
function of the current seed (`bind_stmt` followed by the tail logic and
the action). -/
structure RecArm (α : Type) where
  peekTok : Option String
  body : α → Parser α

/-- Outcome of one pass over the recursive-tail arms. -/
inductive LoopStep (α : Type) where
  | fatal (e : PError) (s : Stream) (c : ParseContext)
  | emptyMatch (s : Stream) (c : ParseContext)
  | progress (v : α) (s : Stream) (c : ParseContext)
  | noMatch (s : Stream) (c : ParseContext)

/-- Try the arms in order, as the concatenated arm blocks of
`generate_recursive_loop_body` do: a failed peek or a no-match attempt
falls through to the next arm; an attempt error propagates; a successful
attempt is classified by whether the cursor advanced. -/
def runArms {α : Type} (arms : List (RecArm α)) (lhs : α) (input : Stream)
    (ctx : ParseContext) : LoopStep α :=
  match arms with
  | [] => .noMatch input ctx
  | arm :: rest =>
      let runAttempt : LoopStep α :=
        match attempt (arm.body lhs) input ctx with
        | (.error e, s, c) => .fatal e s c
        | (.ok (some v), s, c) =>
            if input.pos = s.pos then .emptyMatch s c else .progress v s c
        | (.ok none, s, c) => runArms rest lhs s c
      match arm.peekTok with
      | some tk => if streamPeek input tk then runAttempt else runArms rest lhs input ctx
      | none => runAttempt

/-- The message of the generated empty-match guard. -/
def infiniteLoopMsg : String :=
  "Left-recursive rule matched empty string (infinite loop detected)"

/-- The generated `loop { ... break; }` over the recursive-tail arms,
with fuel standing in for the unbounded Rust loop (running out of fuel is
a distinguished error, never a silent success). -/
def recLoop {α : Type} (arms : List (RecArm α)) :
    Nat → α → Stream → ParseContext → PResult α × Stream × ParseContext
  | 0, _, input, ctx =>
      (.error { span := input.pos, msg := "recursion fuel exhausted" }, input, ctx)
  | fuel + 1, lhs, input, ctx =>
      match runArms arms lhs input ctx with
      | .fatal e s c => (.error e, s, c)
      | .emptyMatch s c => (.error { span := s.pos, msg := infiniteLoopMsg }, s, c)
      | .progress v s c => recLoop arms fuel v s c
      | .noMatch s c => (.ok lhs, s, c)

/-- The ordered-alternative arm for a variant with no derivable peek and
no unique key (`generate_variants_internal`, final arm shape): run the
variant body inside `attempt`; a fatal error propagates, a match returns,
a no-match falls through to the next alternative. -/
def altArm {α : Type} (body : Parser α) (next : Parser α) : Parser α :=
  fun input ctx =>
    match attempt body input ctx with
    | (.error e, s, c) => (.error e, s, c)
    | (.ok (some v), s, c) => (.ok v, s, c)
    | (.ok none, s, c) => next s c

/-- The tail of `generate_variants_internal`: when every alternative has
fallen through, fail with the recorded best error (taking it out of the
context) or a generic message. -/
def variantsFallback {α : Type} (msg : String) : Parser α := fun input ctx =>
  match ctx.bestError with
  | some st => (.error st.err, input, { ctx with bestError := none })
  | none => (.error { span := input.pos, msg := msg }, input, ctx)

/-- The `parse_<rule>_impl` wrapper: push the rule name, run the body,
pop the rule name on both exits. -/
def ruleImpl {α : Type} (name : String) (body : Parser α) : Parser α :=
  fun input ctx =>
    match body input (ctx.enterRule name) with
    | (res, s, c) => (res, s, c.exitRule)

/-- The public `parse_<rule>` wrapper: fresh context; on failure prefer
the recorded best error (`take_best_error`). -/
def ruleEntry {α : Type} (impl : Parser α) (input : Stream) : PResult α :=
  match impl input ParseContext.new with
  | (.ok v, _, _) => .ok v
  | (.error e, _, c) =>
      match c.bestError with
      | some st => .error st.err
      | none => .error e

/-!
### The concrete left-recursive example grammar of claim C1

    rule expr -> Int = l:expr "-" r:term -> { l - r }
                     | t:term            -> { t }
    rule term -> Int = n:integer         -> { n }

The definitions below are the code the syn backend generates for this
grammar, translated into the model: `term`'s single variant starts with a
rule call (conservatively nullable, no peek, not unique), so it uses the
speculative `attempt` arm; `expr`'s base dispatch likewise; the
recursive-tail arm peeks the literal token of `"-"`.
-/

/-- Body of rule `term`: single variant `n:integer -> n` through the
speculative arm, then the fallback. -/
def parseTermImpl : Parser Int :=
  ruleImpl "term"
    (altArm (pseq intP (fun n => pureP n))
      (variantsFallback "No matching rule variant found"))

/-- The recursive-tail arm of `expr`: peek the `"-"` token; the body
clones the seed into `l`, parses `"-"`, parses `r:term`, and builds
`l - r`. -/
def exprTailArm : RecArm Int :=
  { peekTok := some "-",
    body := fun lhs =>
      pseq (litP "-") (fun _ => pseq parseTermImpl (fun r => pureP (lhs - r))) }

/-- Body of rule `expr`: run the base-variant dispatch once to produce the
seed, then the recursive loop (fuel: one step per remaining token plus
one, enough for every iteration the progress guard admits). -/
def parseExprImpl : Parser Int :=
  ruleImpl "expr"
    (pseq (altArm (pseq parseTermImpl (fun t => pureP t))
            (variantsFallback "No matching rule variant found"))
      (fun lhs => fun input ctx =>
        recLoop [exprTailArm] (input.toks.length + 1) lhs input ctx))

/-- The public `parse_expr` entry point. -/
def parseExpr (input : Stream) : PResult Int := ruleEntry parseExprImpl input

/-- The token stream of the input string `"10 - 2 - 3"`. -/
def exprExampleInput : Stream :=
  { pos := 0, toks := [Tok.num 10, Tok.sym "-", Tok.num 2, Tok.sym "-", Tok.num 3] }

/-!
### Repeat and Plus loops (codegen/pattern.rs, `generate_pattern_step`)

The binding-collecting Repeat compiles to either the speculative loop
`while let Some(vals) = rt::attempt(...)? { push }` or, when the inner
pattern has a simple peek, to `while input.peek(tok) { inner; push }`.
Plus is the same loop preceded by one mandatory run of the inner logic
whose failure propagates.  The accumulated vectors are modelled by one
value list (one list per binding in the generated code; the bindings of
one iteration travel together as a tuple there and as `α` here).
-/

/-- The speculative Repeat loop after `n` iterations have pushed `acc`
(most recent first). -/
def repeatAttemptGo {α : Type} (inner : Parser α) :
    Nat → List α → Parser (List α)
  | 0, _ => fun input ctx =>
      (.error { span := input.pos, msg := "repeat fuel exhausted" }, input, ctx)
  | fuel + 1, acc => fun input ctx =>
      match attempt inner input ctx with
      | (.error e, s, c) => (.error e, s, c)
      | (.ok none, s, c) => (.ok acc.reverse, s, c)
      | (.ok (some v), s, c) => repeatAttemptGo inner fuel (v :: acc) s c

/-- `Repeat` via the speculative loop. -/
def repeatAttempt {α : Type} (inner : Parser α) (fuel : Nat) : Parser (List α) :=
  repeatAttemptGo inner fuel []

/-- The peek-guarded Repeat loop: a failure of the inner logic after the
peek matched propagates (there is no attempt around it). -/
def repeatPeekGo {α : Type} (tk : String) (inner : Parser α) :
    Nat → List α → Parser (List α)
  | 0, _ => fun input ctx =>
      (.error { span := input.pos, msg := "repeat fuel exhausted" }, input, ctx)
  | fuel + 1, acc => fun input ctx =>
      if streamPeek input tk then
        match inner input ctx with
        | (.error e, s, c) => (.error e, s, c)
        | (.ok v, s, c) => repeatPeekGo tk inner fuel (v :: acc) s c
      else (.ok acc.reverse, input, ctx)

/-- `Repeat` via the peek-guarded loop. -/
def repeatPeek {α : Type} (tk : String) (inner : Parser α) (fuel : Nat) :
    Parser (List α) :=
  repeatPeekGo tk inner fuel []

/-- `Plus` via the speculative loop: one mandatory iteration whose failure
propagates, then the Repeat loop with the first value already pushed. -/
def plusAttempt {α : Type} (inner : Parser α) (fuel : Nat) : Parser (List α) :=
  fun input ctx =>
    match inner input ctx with
    | (.error e, s, c) => (.error e, s, c)
    | (.ok v, s, c) => repeatAttemptGo inner fuel [v] s c

/-- `Plus` via the peek-guarded loop. -/
def plusPeek {α : Type} (tk : String) (inner : Parser α) (fuel : Nat) :
    Parser (List α) :=
  fun input ctx =>
    match inner input ctx with
    | (.error e, s, c) => (.error e, s, c)
    | (.ok v, s, c) => repeatPeekGo tk inner fuel [v] s c

/-- A parser never raises the fatal flag: entered with the flag cleared
(as `attempt` guarantees), it leaves the flag cleared.  The bodies that
the synthesizer puts inside Repeat and Plus satisfy this unless the
grammar author placed a cut inside the repeated pattern. -/
def NonFatal {α : Type} (p : Parser α) : Prop :=
  ∀ input ctx, ctx.isFatal = false → (p input ctx).2.2.isFatal = false

/-- A parser consumes at least one token whenever it succeeds. -/
def Consuming {α : Type} (p : Parser α) : Prop :=
  ∀ input ctx v s c, p input ctx = (.ok v, s, c) → s.toks.length < input.toks.length

/-!
### The pattern tree (`ModelPattern` of syn-grammar-model)

Spans are cursor indices into the grammar source; literals carry their
token text.  `args` of a rule call are patterns, as in the syn-grammar1
model that the patched validator (`src/syn-grammar1-bug-patch.rs`)
recurses into.
-/

/-- `ModelPattern`: the closed sum type of grammar patterns. -/
inductive Pat where
  | cut (span : Nat)
  | lit (value : String) (span : Nat)
  | ruleCall (binding : Option String) (ruleName : String) (args : List Pat) (span : Nat)
  | group (alts : List (List Pat)) (span : Nat)
  | bracketed (inner : List Pat) (span : Nat)
  | braced (inner : List Pat) (span : Nat)
  | parenthesized (inner : List Pat) (span : Nat)
  | optional (inner : Pat) (span : Nat)
  | repeatP (inner : Pat) (span : Nat)
  | plus (inner : Pat) (span : Nat)
  | spanBinding (inner : Pat) (name : String) (span : Nat)
  | recover (binding : Option String) (body : Pat) (sync : Pat) (span : Nat)
  | peek (inner : Pat) (span : Nat)
  | notP (inner : Pat) (span : Nat)
deriving Repr

/-- `ModelPattern::span`. -/
def Pat.span : Pat → Nat
  | .cut s => s
  | .lit _ s => s
  | .ruleCall _ _ _ s => s
  | .group _ s => s
  | .bracketed _ s => s
  | .braced _ s => s
  | .parenthesized _ s => s
  | .optional _ s => s
  | .repeatP _ s => s
  | .plus _ s => s
  | .spanBinding _ _ s => s
  | .recover _ _ _ s => s
  | .peek _ s => s
  | .notP _ s => s

/-!
### Static analysis (`analysis.rs`)
-/

mutual

/-- `is_nullable`: can the pattern match the empty input?  Rule calls are
conservatively nullable; literals and delimited regions never are. -/
def isNullable : Pat → Bool
  | .cut _ => true
  | .lit _ _ => false
  | .ruleCall _ _ _ _ => true
  | .group alts _ => anyAltNullable alts
  | .bracketed _ _ => false
  | .braced _ _ => false
  | .parenthesized _ _ => false
  | .optional _ _ => true
  | .repeatP _ _ => true
  | .plus inner _ => isNullable inner
  | .spanBinding inner _ _ => isNullable inner
  | .recover _ _ _ _ => true
  | .peek _ _ => true
  | .notP _ _ => true
termination_by structural p => p

/-- A group is nullable when some alternative is entirely nullable. -/
def anyAltNullable : List (List Pat) → Bool
  | [] => false
  | seq :: rest => seqAllNullable seq || anyAltNullable rest
termination_by structural l => l

/-- Every pattern of the sequence is nullable. -/
def seqAllNullable : List Pat → Bool
  | [] => true
  | p :: ps => isNullable p && seqAllNullable ps
termination_by structural l => l

end

/-- `get_simple_peek` in the token model: the peekable leading token of a
pattern, when unambiguous.  A literal is one token here, so its leading
token is its value; delimited regions peek their opening delimiter. -/
def getSimplePeek : Pat → Option String
  | .lit v _ => some v
  | .bracketed _ _ => some "["
  | .braced _ _ => some "\x7b"
  | .parenthesized _ _ => some "("
  | .optional inner _ => getSimplePeek inner
  | .repeatP inner _ => getSimplePeek inner
  | .plus inner _ => getSimplePeek inner
  | .spanBinding inner _ _ => getSimplePeek inner
  | .recover _ body _ _ => getSimplePeek body
  | .group alts _ =>
      match alts with
      | [seq] =>
          match seq with
          | first :: _ => getSimplePeek first
          | [] => none
      | _ => none
  | .peek inner _ => getSimplePeek inner
  | .notP _ _ => none
  | .cut _ => none
  | .ruleCall _ _ _ _ => none

/-- `get_peek_token_string` restricted to one pattern (the Rust function
recurses on singleton slices of the inner pattern). -/
def peekKeyOfPat : Pat → Option String
  | .lit v _ => some v
  | .bracketed _ _ => some "Bracket"
  | .braced _ _ => some "Brace"
  | .parenthesized _ _ => some "Paren"
  | .optional inner _ => peekKeyOfPat inner
  | .repeatP inner _ => peekKeyOfPat inner
  | .plus inner _ => peekKeyOfPat inner
  | .spanBinding inner _ _ => peekKeyOfPat inner
  | .recover _ body _ _ => peekKeyOfPat body
  | .group alts _ =>
      match alts with
      | [seq] =>
          match seq with
          | first :: _ => peekKeyOfPat first
          | [] => none
      | _ => none
  | .peek inner _ => peekKeyOfPat inner
  | .notP _ _ => none
  | .cut _ => none
  | .ruleCall _ _ _ _ => none

/-- `get_peek_token_string`: the unique dispatch key of a variant's first
pattern. -/
def getPeekTokenString (ps : List Pat) : Option String :=
  ps.head?.bind peekKeyOfPat

/-- `find_cut`: split a sequence at its first `Cut`, if any. -/
def findCut (ps : List Pat) : Option (List Pat × List Pat) :=
  match ps.findIdx? (fun p => match p with | .cut _ => true | _ => false) with
  | some i =>
      if i < ps.length then some (ps.take i, ps.drop (i + 1)) else none
  | none => none

/-- `v.pattern.first().is_none_or(is_nullable)`. -/
def headNullable (ps : List Pat) : Bool :=
  match ps.head? with
  | none => true
  | some p => isNullable p

/-- The non-nullable first-token keys of a variant list (the
`token_counts` tally of `generate_variants_internal`). -/
def variantKeys {α : Type} (variants : List (List Pat × α)) : List String :=
  variants.filterMap (fun v =>
    if headNullable v.1 then none else getPeekTokenString v.1)

/-- How often a key occurs in the tally. -/
def keyCount (ks : List String) (k : String) : Nat :=
  (ks.filter (fun x => x = k)).length

/-- The `Err(e) => { ctx.set_fatal(true); return Err(e) }` shape around a
committed body: an error raises the fatal flag and is returned. -/
def commitRun {α : Type} (p : Parser α) : Parser α := fun input ctx =>
  match p input ctx with
  | (.ok v, s, c) => (.ok v, s, c)
  | (.error e, s, c) => (.error e, s, c.setFatal true)

/-- Discard the value of an attempt, propagating only fatal errors
(`let _ = rt::attempt(...)?;`). -/
def discardAttempt {α : Type} (p : Parser α) : Parser Unit := fun input ctx =>
  match attempt p input ctx with
  | (.error e, s, c) => (.error e, s, c)
  | (.ok _, s, c) => (.ok (), s, c)

/-!
### The synthesized pattern steps and ordered-variant dispatch

`patRun` interprets the binding-free code `generate_pattern_step` emits
for one pattern (all bindings erased to `Unit`; the value-collecting
Repeat/Plus shapes are the standalone combinators above).  `dispatchArms`
interprets the arm sequence of `generate_variants_internal` for variants
paired with a constant action value.  Everything is fuelled; every
recursive call strictly decreases the fuel, and exhausted fuel is a
distinguished error.
-/

mutual

/-- One pattern step (`generate_pattern_step`), bindings erased. -/
def patRun (env : String → Parser Unit) : Nat → Pat → Parser Unit
  | 0, _ => fun input ctx =>
      (.error { span := input.pos, msg := "pattern fuel exhausted" }, input, ctx)
  | fuel + 1, p =>
      match p with
      | .cut _ => pureP ()
      | .lit v _ => litP v
      | .ruleCall _ name _ _ => env name
      | .group alts _ =>
          dispatchArmsU env fuel (variantKeys (alts.map (fun s => (s, ()))))
            (alts.map (fun s => (s, ())))
            (variantsFallback "No matching variant in group")
      | .bracketed inner _ =>
          pseq (litP "[") (fun _ => pseq (seqRun env fuel inner) (fun _ => litP "]"))
      | .braced inner _ =>
          pseq (litP "\x7b") (fun _ => pseq (seqRun env fuel inner) (fun _ => litP "\x7d"))
      | .parenthesized inner _ =>
          pseq (litP "(") (fun _ => pseq (seqRun env fuel inner) (fun _ => litP ")"))
      | .optional inner _ =>
          match getSimplePeek inner, isNullable inner with
          | some tk, false => fun input ctx =>
              if streamPeek input tk then discardAttempt (patRun env fuel inner) input ctx
              else (.ok (), input, ctx)
          | _, _ => discardAttempt (patRun env fuel inner)
      | .repeatP inner _ => fun input ctx =>
          match repeatAttempt (patRun env fuel inner) fuel input ctx with
          | (.error e, s, c) => (.error e, s, c)
          | (.ok _, s, c) => (.ok (), s, c)
      | .plus inner _ =>
          pseq (patRun env fuel inner) (fun _ => fun input ctx =>
            match repeatAttempt (patRun env fuel inner) fuel input ctx with
            | (.error e, s, c) => (.error e, s, c)
            | (.ok _, s, c) => (.ok (), s, c))
      | .spanBinding inner _ _ => patRun env fuel inner
      | .recover _ body sync _ =>
          match getSimplePeek sync with
          | none => fun input ctx =>
              (.error { span := input.pos,
                        msg := "Sync pattern in recover(...) must have a simple start token." },
               input, ctx)
          | some tk => fun input ctx =>
              match attemptRecover (patRun env fuel body) input ctx with
              | (.error e, s, c) => (.error e, s, c)
              | (.ok (some _), s, c) => (.ok (), s, c)
              | (.ok none, s, c) =>
                  (.ok (), skipUntil (fun st => streamPeek st tk) s, c)
      | .peek inner _ => fun input ctx =>
          match specPeek (patRun env fuel inner) input ctx with
          | (.error e, s, c) => (.error e, s, c)
          | (.ok _, s, c) => (.ok (), s, c)
      | .notP inner _ => fun input ctx =>
          notCheck (patRun env fuel inner) input ctx
termination_by structural fuel p => fuel

/-- A pattern sequence (`generate_sequence_steps`), bindings erased. -/
def seqRun (env : String → Parser Unit) : Nat → List Pat → Parser Unit
  | 0, _ => fun input ctx =>
      (.error { span := input.pos, msg := "pattern fuel exhausted" }, input, ctx)
  | _ + 1, [] => pureP ()
  | fuel + 1, p :: ps =>
      pseq (patRun env fuel p) (fun _ => seqRun env fuel ps)
termination_by structural fuel l => fuel

/-- The arm sequence of `generate_variants_internal`, specialized to
`Unit` actions for inline groups (the generic form `dispatchArms` below
has the identical body; the specialization exists only because one
structural mutual block cannot hold a universe-polymorphic member). -/
def dispatchArmsU (env : String → Parser Unit) :
    Nat → List (String) → List (List Pat × Unit) → Parser Unit → Parser Unit
  | 0, _, _, _ => fun input ctx =>
      (.error { span := input.pos, msg := "pattern fuel exhausted" }, input, ctx)
  | _ + 1, _, [], fb => fb
  | fuel + 1, ks, (pat, act) :: rest, fb =>
      let next := dispatchArmsU env fuel ks rest fb
      let isNul := headNullable pat
      let peekTok := if isNul then none else pat.head?.bind getSimplePeek
      let peekStr := if isNul then none else getPeekTokenString pat
      let isUnique :=
        match peekStr with
        | some k => keyCount ks k == 1
        | none => false
      match findCut pat with
      | some (preCut, postCut) =>
          let preBody : Parser Unit := seqRun env fuel preCut
          let postBody : Parser Unit :=
            pseq (seqRun env fuel postCut) (fun _ => pureP act)
          let runAll : Parser Unit := pseq preBody (fun _ => postBody)
          let logicBlock : Parser Unit :=
            if isUnique then commitRun runAll
            else fun input ctx =>
              match attempt preBody input ctx with
              | (.error e, s, c) => (.error e, s, c)
              | (.ok (some _), s, c) => commitRun postBody s c
              | (.ok none, s, c) => next s c
          (match peekTok with
           | some tk => fun input ctx =>
               if streamPeek input tk then logicBlock input ctx else next input ctx
           | none => logicBlock)
      | none =>
          let body : Parser Unit := pseq (seqRun env fuel pat) (fun _ => pureP act)
          if isUnique then fun input ctx =>
            if streamPeek input (peekTok.getD "") then commitRun body input ctx
            else next input ctx
          else
            match peekTok with
            | some tk => fun input ctx =>
                if streamPeek input tk then altArm body next input ctx
                else next input ctx
            | none => altArm body next
termination_by structural fuel ks vs fb => fuel

end

/-- The arm sequence of `generate_variants_internal` over variants with
constant action values: per variant, the cut split, the nullability of
the first pattern, the simple-peek guard, and the uniqueness of the
first-token key select among peek-then-commit, peek-then-attempt and
plain speculative dispatch; `fb` is the code after the last arm. -/
def dispatchArms {α : Type} (env : String → Parser Unit) :
    Nat → List (String) → List (List Pat × α) → Parser α → Parser α
  | 0, _, _, _ => fun input ctx =>
      (.error { span := input.pos, msg := "pattern fuel exhausted" }, input, ctx)
  | _ + 1, _, [], fb => fb
  | fuel + 1, ks, (pat, act) :: rest, fb =>
      let next := dispatchArms env fuel ks rest fb
      let isNul := headNullable pat
      let peekTok := if isNul then none else pat.head?.bind getSimplePeek
      let peekStr := if isNul then none else getPeekTokenString pat
      let isUnique :=
        match peekStr with
        | some k => keyCount ks k == 1
        | none => false
      match findCut pat with
      | some (preCut, postCut) =>
          let preBody : Parser Unit := seqRun env fuel preCut
          let postBody : Parser α :=
            pseq (seqRun env fuel postCut) (fun _ => pureP act)
          let runAll : Parser α := pseq preBody (fun _ => postBody)
          let logicBlock : Parser α :=
            if isUnique then commitRun runAll
            else fun input ctx =>
              match attempt preBody input ctx with
              | (.error e, s, c) => (.error e, s, c)
              | (.ok (some _), s, c) => commitRun postBody s c
              | (.ok none, s, c) => next s c
          (match peekTok with
           | some tk => fun input ctx =>
               if streamPeek input tk then logicBlock input ctx else next input ctx
           | none => logicBlock)
      | none =>
          let body : Parser α := pseq (seqRun env fuel pat) (fun _ => pureP act)
          if isUnique then fun input ctx =>
            if streamPeek input (peekTok.getD "") then commitRun body input ctx
            else next input ctx
          else
            match peekTok with
            | some tk => fun input ctx =>
                if streamPeek input tk then altArm body next input ctx
                else next input ctx
            | none => altArm body next
termination_by structural fuel ks vs fb => fuel

/-- `generate_variants_internal` for a rule's variants with constant
actions: tally the first-token keys, then run the arm sequence with the
best-error/generic-message fallback. -/
def variantsDispatch {α : Type} (env : String → Parser Unit) (fuel : Nat)
    (variants : List (List Pat × α)) (isTopLevel : Bool) : Parser α :=
  dispatchArms env fuel (variantKeys variants) variants
    (variantsFallback
      (if isTopLevel then "No matching rule variant found" else "No matching variant in group"))

/-!
### The grammar model and the semantic validator

`validate` below follows `src/syn-grammar1-bug-patch.rs` (the patched
validator of syn-grammar1, which extends the vendored
`syn-grammar-model/src/validator.rs` with the cycle and shadowing
stages).  Actions, attributes and types are irrelevant to validation and
are omitted from the model; a rule keeps its parameter names (the patch
treats parameters as defined names) and the span of its name.
-/

/-- A grammar rule: name (with its span), parameter names, variants (each
a pattern sequence; the action is irrelevant here). -/
structure MRule where
  name : String
  nameSpan : Nat
  params : List String
  variants : List (List Pat)
deriving Repr

/-- A grammar definition: name, optional inherited parent, rules. -/
structure MGrammar where
  name : String
  inherits : Option String
  rules : List MRule
deriving Repr

/-- A validation error: the reported span and the messages (head first;
`syn::Error::combine` appends further messages to the first error). -/
structure VError where
  span : Nat
  msgs : List String
deriving DecidableEq, Repr

/-- Combine a list of analysis errors as the patch does: keep the first,
append the rest. -/
def combineErrors : List VError → Option VError
  | [] => none
  | e :: rest => some { span := e.span, msgs := e.msgs ++ rest.flatMap (fun x => x.msgs) }

/-- Duplicate-rule pass: report at the second definition's name span. -/
def checkDuplicates : List MRule → List String → Option VError
  | [], _ => none
  | r :: rest, seen =>
      if r.name ∈ seen then
        some { span := r.nameSpan, msgs := ["Duplicate rule definition: '" ++ r.name ++ "'"] }
      else checkDuplicates rest (r.name :: seen)

/-- All locally defined names plus the built-in catalog. -/
def allDefs (builtins : List String) (g : MGrammar) : List String :=
  g.rules.map (fun r => r.name) ++ builtins

mutual

/-- Undefined-rule check for one pattern (patch `validate_pattern`):
a rule call must name a defined rule, a built-in, or a parameter. -/
def checkUndefPat (defs : List String) (params : List String) : Pat → Option VError
  | .ruleCall _ name _ span =>
      if name ∈ params then none
      else if name ∈ defs then none
      else some { span := span, msgs := ["Undefined rule: '" ++ name ++ "'"] }
  | .repeatP inner _ => checkUndefPat defs params inner
  | .plus inner _ => checkUndefPat defs params inner
  | .optional inner _ => checkUndefPat defs params inner
  | .spanBinding inner _ _ => checkUndefPat defs params inner
  | .peek inner _ => checkUndefPat defs params inner
  | .notP inner _ => checkUndefPat defs params inner
  | .group alts _ => checkUndefAlts defs params alts
  | .bracketed seqn _ => checkUndefSeq defs params seqn
  | .braced seqn _ => checkUndefSeq defs params seqn
  | .parenthesized seqn _ => checkUndefSeq defs params seqn
  | .recover _ body sync _ =>
      match checkUndefPat defs params body with
      | some e => some e
      | none => checkUndefPat defs params sync
  | .cut _ => none
  | .lit _ _ => none
termination_by structural p => p

/-- Undefined-rule check for a pattern sequence. -/
def checkUndefSeq (defs : List String) (params : List String) : List Pat → Option VError
  | [] => none
  | p :: ps =>
      match checkUndefPat defs params p with
      | some e => some e
      | none => checkUndefSeq defs params ps
termination_by structural l => l

/-- Undefined-rule check for group alternatives. -/
def checkUndefAlts (defs : List String) (params : List String) :
    List (List Pat) → Option VError
  | [] => none
  | s :: rest =>
      match checkUndefSeq defs params s with
      | some e => some e
      | none => checkUndefAlts defs params rest
termination_by structural l => l

end

/-- Undefined-rule pass over the whole grammar (patch `validate_rule`
applied in rule order). -/
def checkUndefined (builtins : List String) (g : MGrammar) : Option VError :=
  let defs := allDefs builtins g
  g.rules.foldr
    (fun r acc =>
      match checkUndefSeq defs r.params (r.variants.flatMap id) with
      | some e => some e
      | none => acc)
    none

/-- Look up a rule by name (`rule_map.get`). -/
def findRule (g : MGrammar) (name : String) : Option MRule :=
  g.rules.find? (fun r => r.name = name)

mutual

/-- Argument-count check for one pattern (patch
`validate_args_recursive`): a call to a local rule must pass exactly the
declared number of arguments; a built-in accepts none; the arguments
themselves are checked recursively. -/
def checkArgsPat (g : MGrammar) (builtins : List String) : Pat → Option VError
  | .ruleCall _ name args span =>
      let hd :=
        match findRule g name with
        | some target =>
            if target.params.length ≠ args.length then
              some { span := span,
                     msgs := ["Rule '" ++ name ++ "' expects " ++
                              toString target.params.length ++
                              " argument(s), but got " ++ toString args.length ++ "."] }
            else none
        | none =>
            if name ∈ builtins && !args.isEmpty then
              some { span := span,
                     msgs := ["Built-in rule '" ++ name ++ "' does not accept arguments."] }
            else none
      match hd with
      | some e => some e
      | none => checkArgsSeq g builtins args
  | .repeatP inner _ => checkArgsPat g builtins inner
  | .plus inner _ => checkArgsPat g builtins inner
  | .optional inner _ => checkArgsPat g builtins inner
  | .spanBinding inner _ _ => checkArgsPat g builtins inner
  | .peek inner _ => checkArgsPat g builtins inner
  | .notP inner _ => checkArgsPat g builtins inner
  | .group alts _ => checkArgsAlts g builtins alts
  | .bracketed seqn _ => checkArgsSeq g builtins seqn
  | .braced seqn _ => checkArgsSeq g builtins seqn
  | .parenthesized seqn _ => checkArgsSeq g builtins seqn
  | .recover _ body sync _ =>
      match checkArgsPat g builtins body with
      | some e => some e
      | none => checkArgsPat g builtins sync
  | .cut _ => none
  | .lit _ _ => none
termination_by structural p => p

/-- Argument-count check for a pattern sequence. -/
def checkArgsSeq (g : MGrammar) (builtins : List String) : List Pat → Option VError
  | [] => none
  | p :: ps =>
      match checkArgsPat g builtins p with
      | some e => some e
      | none => checkArgsSeq g builtins ps
termination_by structural l => l

/-- Argument-count check for group alternatives. -/
def checkArgsAlts (g : MGrammar) (builtins : List String) :
    List (List Pat) → Option VError
  | [] => none
  | s :: rest =>
      match checkArgsSeq g builtins s with
      | some e => some e
      | none => checkArgsAlts g builtins rest
termination_by structural l => l

end

/-- Argument-count pass (`validate_argument_counts`): a separate full pass
run with the complete rule map. -/
def checkArgCounts (builtins : List String) (g : MGrammar) : Option VError :=
  g.rules.foldr
    (fun r acc =>
      match checkArgsSeq g builtins (r.variants.flatMap id) with
      | some e => some e
      | none => acc)
    none

/-!
### Cycle discovery

Modelled from the spec: the cycle analysis lives in syn-grammar1's
`analysis::analyze_grammar`, which is not among the repository's source
files; only its caller in `src/syn-grammar1-bug-patch.rs` is.  Per the
spec (§4.2), rule A has an edge to rule B when some variant of A begins,
as its very first pattern, with a call to B; a self-loop is direct left
recursion, any other cycle is an error.  `cyclesOf` returns, per rule,
its self-loop (if any) and an elementary cycle through it found by a
fuelled depth-first search of the first-call graph.
-/

/-- The rules called in leading position by some variant of `r`
(`split_left_recursive`'s criterion, applied edge-wise). -/
def firstCallees (r : MRule) : List String :=
  r.variants.filterMap (fun seqn =>
    match seqn.head? with
    | some (.ruleCall _ name _ _) => some name
    | _ => none)

/-- The first-call graph: successors of a rule name. -/
def edgesOf (g : MGrammar) (name : String) : List String :=
  match findRule g name with
  | some r => firstCallees r
  | none => []

mutual

/-- Depth-first search for a path of first-call edges from `cur` back to
`target`; returns the path (starting at `cur`) when one is found.  Nodes
in `vis` are not explored again. -/
def searchBack (E : String → List String) (target : String) :
    Nat → String → List String → Option (List String) × List String
  | 0, _, vis => (none, vis)
  | fuel + 1, cur, vis =>
      if target ∈ E cur then (some [cur], vis)
      else
        match searchList E target fuel (E cur) (cur :: vis) with
        | (some p, vis2) => (some (cur :: p), vis2)
        | (none, vis2) => (none, vis2)
termination_by structural fuel cur vis => fuel

/-- Search each unvisited node of the worklist in turn, threading the
visited set (one fuel tick per worklist element). -/
def searchList (E : String → List String) (target : String) :
    Nat → List String → List String → Option (List String) × List String
  | _, [], vis => (none, vis)
  | 0, _ :: _, vis => (none, vis)
  | fuel + 1, n :: ns, vis =>
      if n ∈ vis then searchList E target fuel ns vis
      else
        match searchBack E target fuel n vis with
        | (some p, vis2) => (some p, vis2)
        | (none, vis2) => searchList E target fuel ns vis2
termination_by structural fuel l vis => fuel

end

/-- The total number of first-call edges of the grammar (a fuel bound
that exceeds the length of any successor list). -/
def edgeTotal (g : MGrammar) : Nat :=
  (g.rules.map (fun r => (firstCallees r).length)).sum

/-- The cycles through one rule: its self-loop, then an elementary proper
cycle (an edge to another rule and a path back), if any. -/
def cyclesFor (g : MGrammar) (r : MRule) : List (List String) :=
  let E := edgesOf g
  let selfLoop := if r.name ∈ E r.name then [[r.name]] else []
  let proper :=
    match searchList E r.name (edgeTotal g + 1)
        ((E r.name).filter (fun s => s ≠ r.name)) [] with
    | (some p, _) => [r.name :: p]
    | (none, _) => []
  selfLoop ++ proper

/-- Modelled from the spec: `analysis.cycles`, rule by rule in
declaration order. -/
def cyclesOf (g : MGrammar) : List (List String) :=
  g.rules.flatMap (cyclesFor g)

/-- The message of the indirect-left-recursion error: the cycle, with its
first rule repeated at the end (`cycle.iter().chain(once(&cycle[0]))`). -/
def cycleMsg (c : List String) : String :=
  "Indirect left recursion detected (unsupported): " ++
    String.intercalate " -> " (c ++ [c.headD ""])

/-- The span of the name of the rule a cycle is reported at. -/
def ruleNameSpan (g : MGrammar) (name : String) : Nat :=
  match findRule g name with
  | some r => r.nameSpan
  | none => 0

/-- The cycle stage of the patch: the first cycle of length > 1 is a hard
error at the first rule of the cycle, naming the full cycle. -/
def cycleError (g : MGrammar) : Option VError :=
  ((cyclesOf g).find? (fun c => 1 < c.length)).map (fun c =>
    { span := ruleNameSpan g (c.headD ""), msgs := [cycleMsg c] })

/-!
### Shadowing detection

Modelled from the spec (§4.2) and the patch's own tests: sibling
alternatives are compared pairwise, term by term, up to the shorter
length; fully identical sequences are "Alternative i and j are
identical", an earlier alternative that is a strict prefix of a later one
"shadows" it, and a longer alternative listed before its own prefix is
accepted.  Pattern terms are compared structurally.
-/

mutual

/-- Structural equality of two pattern terms.  Spans are ignored: the
model's `Identifier` and `StringLiteral` compare by text only
(types.rs), so two terms written identically at different source
positions are identical. -/
def patBeq : Pat → Pat → Bool
  | .cut _, .cut _ => true
  | .lit v1 _, .lit v2 _ => v1 == v2
  | .ruleCall b1 n1 a1 _, .ruleCall b2 n2 a2 _ =>
      b1 == b2 && n1 == n2 && patSeqBeq a1 a2
  | .group x1 _, .group x2 _ => patAltsBeq x1 x2
  | .bracketed x1 _, .bracketed x2 _ => patSeqBeq x1 x2
  | .braced x1 _, .braced x2 _ => patSeqBeq x1 x2
  | .parenthesized x1 _, .parenthesized x2 _ => patSeqBeq x1 x2
  | .optional x1 _, .optional x2 _ => patBeq x1 x2
  | .repeatP x1 _, .repeatP x2 _ => patBeq x1 x2
  | .plus x1 _, .plus x2 _ => patBeq x1 x2
  | .spanBinding x1 n1 _, .spanBinding x2 n2 _ => patBeq x1 x2 && n1 == n2
  | .recover b1 x1 y1 _, .recover b2 x2 y2 _ =>
      b1 == b2 && patBeq x1 x2 && patBeq y1 y2
  | .peek x1 _, .peek x2 _ => patBeq x1 x2
  | .notP x1 _, .notP x2 _ => patBeq x1 x2
  | _, _ => false
termination_by structural a b => a

/-- Structural equality of two pattern sequences. -/
def patSeqBeq : List Pat → List Pat → Bool
  | [], [] => true
  | a :: as_, b :: bs => patBeq a b && patSeqBeq as_ bs
  | _, _ => false
termination_by structural a b => a

/-- Structural equality of two alternative lists. -/
def patAltsBeq : List (List Pat) → List (List Pat) → Bool
  | [], [] => true
  | a :: as_, b :: bs => patSeqBeq a b && patAltsBeq as_ bs
  | _, _ => false
termination_by structural a b => a

end

/-- Term-by-term comparison up to the length of the first sequence: does
`sa` match a prefix of `sb`? -/
def seqPrefixBeq : List Pat → List Pat → Bool
  | [], _ => true
  | _ :: _, [] => false
  | a :: as_, b :: bs => patBeq a b && seqPrefixBeq as_ bs

/-- The shadowing verdict for the ordered pair of alternatives `i < j`
(0-based; the message is 1-based). -/
def shadowPairError (i j : Nat) (sa sb : List Pat) : Option String :=
  if seqPrefixBeq sa sb then
    if sa.length = sb.length then
      some ("Alternative " ++ toString (i + 1) ++ " and " ++ toString (j + 1) ++
            " are identical")
    else
      some ("Alternative " ++ toString (i + 1) ++ " shadows Alternative " ++
            toString (j + 1))
  else none

/-- All shadowing messages of one rule, pairs in index order. -/
def ruleShadowMsgs (variants : List (List Pat)) : List String :=
  (List.range variants.length).flatMap (fun i =>
    (List.range variants.length).filterMap (fun j =>
      if i < j then shadowPairError i j (variants.getD i []) (variants.getD j [])
      else none))

/-- Modelled from the spec: `analysis.errors`, one error per shadowing
message, reported at the rule's name span, rules in declaration order. -/
def shadowErrors (g : MGrammar) : List VError :=
  g.rules.flatMap (fun r =>
    (ruleShadowMsgs r.variants).map (fun m => { span := r.nameSpan, msgs := [m] }))

/-- The full validator of `src/syn-grammar1-bug-patch.rs`: duplicate
names, then (unless the grammar inherits) undefined rules, then argument
counts, then indirect-left-recursion cycles, then (unless the grammar
inherits) the combined shadowing errors.  Unused-rule detection only
prints warnings and cannot fail validation, so it is omitted. -/
def validate (builtins : List String) (g : MGrammar) : Except VError Unit :=
  match checkDuplicates g.rules [] with
  | some e => .error e
  | none =>
      match (if g.inherits.isNone then checkUndefined builtins g else none) with
      | some e => .error e
      | none =>
          match checkArgCounts builtins g with
          | some e => .error e
          | none =>
              match cycleError g with
              | some e => .error e
              | none =>
                  match (if g.inherits.isNone then combineErrors (shadowErrors g)
                         else none) with
                  | some e => .error e
                  | none => .ok ()

/-!
### Concrete fixtures used by witnesses and counterexamples
-/

/-- A body that mutates every snapshotted field (opens a scope, defines a
name, pushes a rule) and then fails with the fatal flag raised. -/
def fatalMutatingBody : Parser Unit := fun input ctx =>
  (.error { span := input.pos, msg := "boom" }, input,
    { ctx with scopes := (ctx.scopes.enterScope).define "x",
               ruleStack := "inner" :: ctx.ruleStack,
               lastSpan := some 9,
               isFatal := true })

/-- The empty input stream. -/
def emptyStream : Stream := { pos := 0, toks := [] }

/-- A one-token numeric stream. -/
def numStream : Stream := { pos := 0, toks := [Tok.num 7] }

/-- A context holding a shallow best error (for the record-error witness). -/
def shallowCtx : ParseContext :=
  { ParseContext.new with
      bestError := some { err := { span := 5, msg := "old" }, isDeep := false } }

/-- A recursive-tail arm that matches without consuming input. -/
def emptyMatchArm : RecArm Int := { peekTok := none, body := fun _ => pureP 0 }

/-- A recursive-tail arm that consumes one numeric token. -/
def consumingArm : RecArm Int := { peekTok := none, body := fun _ => intP }

/-- An environment that knows no rules (the claims' fixtures only use
literal patterns). -/
def envNone : String → Parser Unit := fun _ => fun input ctx =>
  (.error { span := input.pos, msg := "unknown rule" }, input, ctx)

/-- The variants of the claim C2 example grammar
`"commit" "success" -> A | "commit" "failure" -> B`. -/
def commitVariants : List (List Pat × String) :=
  [([Pat.lit "commit" 0, Pat.lit "success" 1], "A"),
   ([Pat.lit "commit" 2, Pat.lit "failure" 3], "B")]

/-- The token stream of the input `"commitfailure"` (the literal
`"commit"` directly followed by `"failure"`). -/
def commitInput : Stream := { pos := 0, toks := [Tok.sym "commit", Tok.sym "failure"] }

/-- A rule whose two variants have unique first-token keys; the first
variant fails after its leading token. -/
def uniqueVariants : List (List Pat × String) :=
  [([Pat.lit "go" 0, Pat.lit "x" 1], "A"), ([Pat.lit "stop" 2], "B")]

/-- Input whose first token selects the first unique variant but whose
second token makes that variant's body fail. -/
def uniqueInput : Stream := { pos := 0, toks := [Tok.sym "go", Tok.sym "y"] }

/-- The built-in catalog used by the validator fixtures. -/
def builtinsFixture : List String := ["ident", "string", "integer"]

/-- A grammar with no duplicate names containing both an argument-count
mismatch (`main` calls `sub` with one argument, `sub` has no parameters)
and an undefined-rule reference (`sub` calls `nope`). -/
def bothErrorsGrammar : MGrammar :=
  { name := "test", inherits := none,
    rules := [
      { name := "main", nameSpan := 1, params := [],
        variants := [[Pat.ruleCall none "sub" [Pat.lit "x" 5] 2]] },
      { name := "sub", nameSpan := 3, params := [],
        variants := [[Pat.ruleCall none "nope" [] 4]] } ] }

/-- A grammar with an indirect left-recursion cycle `a -> b -> a`, each
rule also having a non-recursive base variant. -/
def cycleGrammar : MGrammar :=
  { name := "test", inherits := none,
    rules := [
      { name := "a", nameSpan := 10, params := [],
        variants := [[Pat.ruleCall none "b" [] 11], [Pat.lit "x" 12]] },
      { name := "b", nameSpan := 20, params := [],
        variants := [[Pat.ruleCall none "a" [] 21], [Pat.lit "y" 22]] } ] }

/-- A one-rule grammar with the given variants. -/
def oneRuleGrammar (variants : List (List Pat)) : MGrammar :=
  { name := "test", inherits := none,
    rules := [ { name := "main", nameSpan := 0, params := [], variants := variants } ] }

/-!
## Theorems

First a few shared lemmas about the runtime operations, then one theorem
(plus witness or counterexample) per claim.
-/

/-- Reduction of `attempt` when the body succeeds. -/
theorem attempt_ok {α : Type} {p : Parser α} {input : Stream} {ctx : ParseContext}
    {v : α} {s : Stream} {c : ParseContext}
    (h : p input (ctx.setFatal false) = (.ok v, s, c)) :
    attempt p input ctx = (.ok (some v), s, c.setFatal ctx.isFatal) := by
  simp only [attempt, h]

/-- Reduction of `attempt` when the body fails without raising the fatal
flag: the error is recorded (with the body's rule context), every
snapshotted field is restored and no-match is signalled. -/
theorem attempt_err_nonfatal {α : Type} {p : Parser α} {input : Stream}
    {ctx : ParseContext} {e : PError} {s : Stream} {c : ParseContext}
    (h : p input (ctx.setFatal false) = (.error e, s, c))
    (hf : c.isFatal = false) :
    attempt p input ctx =
      (.ok none, input,
        { (c.setFatal ctx.isFatal).recordError e input.pos with
            scopes := ctx.scopes, ruleStack := ctx.ruleStack,
            lastSpan := ctx.lastSpan }) := by
  simp only [attempt, h]
  rw [hf]
  simp [ParseContext.setFatal]

/-- Reduction of `attempt` when the body fails with the fatal flag
raised: the snapshot is restored, the fatal flag stays raised, the error
propagates unrecorded. -/
theorem attempt_err_fatal {α : Type} {p : Parser α} {input : Stream}
    {ctx : ParseContext} {e : PError} {s : Stream} {c : ParseContext}
    (h : p input (ctx.setFatal false) = (.error e, s, c))
    (hf : c.isFatal = true) :
    attempt p input ctx =
      (.error e, input,
        { c with scopes := ctx.scopes, ruleStack := ctx.ruleStack,
                 lastSpan := ctx.lastSpan, isFatal := true }) := by
  simp only [attempt, h]
  rw [hf]
  simp [ParseContext.setFatal]

/-- One scope-stack operation keeps the stack nonempty. -/
theorem applyOp_length_pos (s : ScopeStack) (op : ScopeOp)
    (h : 0 < s.scopes.length) : 0 < (s.applyOp op).scopes.length := by
  cases op with
  | enter => simp [ScopeStack.applyOp, ScopeStack.enterScope]
  | leave =>
      simp only [ScopeStack.applyOp, ScopeStack.exitScope]
      split
      · rename_i hl
        cases s with
        | mk scopes =>
            cases scopes with
            | nil => simp at h
            | cons a rest =>
                simp only [List.length_cons] at hl
                simp only [List.tail_cons]
                omega
      · exact h
  | define n =>
      cases s with
      | mk scopes =>
          cases scopes with
          | nil => simp at h
          | cons top rest => simp [ScopeStack.applyOp, ScopeStack.define]

/-- Any operation sequence keeps the stack nonempty. -/
theorem runOps_length_pos (ops : List ScopeOp) (s : ScopeStack)
    (h : 0 < s.scopes.length) : 0 < (s.runOps ops).scopes.length := by
  induction ops generalizing s with
  | nil => simpa [ScopeStack.runOps] using h
  | cons op rest ih =>
      have := applyOp_length_pos s op h
      simpa [ScopeStack.runOps, List.foldl_cons] using ih (s.applyOp op) this

/-- On a nonempty stack, a defined name is immediately visible. -/
theorem define_isDefined (s : ScopeStack) (n : String)
    (h : 0 < s.scopes.length) : (s.define n).isDefined n = true := by
  cases s with
  | mk scopes =>
      cases scopes with
      | nil => simp at h
      | cons top rest =>
          simp only [ScopeStack.define, ScopeStack.isDefined, List.any_cons]
          by_cases hn : n ∈ top
          · simp [hn]
          · simp [hn]

/-- C9: every `ScopeStack` created by `new` keeps at least one scope
under any sequence of `enter_scope`, `exit_scope` and `define`
operations (`exit_scope` is a no-op on the last scope), so `define`
always has an innermost scope to insert into and the definition is
immediately visible to `is_defined`. -/
theorem scopeStack_never_empty (ops : List ScopeOp) (n : String) :
    0 < (ScopeStack.new.runOps ops).scopes.length ∧
    ((ScopeStack.new.runOps ops).define n).isDefined n = true := by
  have hpos : 0 < (ScopeStack.new.runOps ops).scopes.length :=
    runOps_length_pos ops ScopeStack.new (by simp [ScopeStack.new])
  exact ⟨hpos, define_isDefined _ n hpos⟩

/-- C3: `record_error` replaces the stored best error iff no error is
stored yet, or the new error is deep (its span differs from the span at
the start of the attempt) while the stored one is shallow; in every
other case the stored error is kept, so the first recorded wins among
equally deep candidates and a deep error displaces a shallow one. -/
theorem recordError_replacement (ctx : ParseContext) (err : PError) (startSpan : Nat) :
    (ctx.bestError = none →
      (ctx.recordError err startSpan).bestError =
        some { err := ctx.enrichWithRule err, isDeep := decide (err.span ≠ startSpan) }) ∧
    (∀ existing, ctx.bestError = some existing →
      ((err.span ≠ startSpan ∧ existing.isDeep = false) →
        (ctx.recordError err startSpan).bestError =
          some { err := ctx.enrichWithRule err, isDeep := decide (err.span ≠ startSpan) }) ∧
      (¬(err.span ≠ startSpan ∧ existing.isDeep = false) →
        (ctx.recordError err startSpan).bestError = some existing)) := by
  refine ⟨?_, ?_⟩
  · intro h
    simp [ParseContext.recordError, h]
  · intro existing h
    refine ⟨?_, ?_⟩
    · rintro ⟨hdeep, hshallow⟩
      simp [ParseContext.recordError, h, hdeep, hshallow]
    · intro hn
      by_cases hdeep : err.span = startSpan
      · simp [ParseContext.recordError, h, hdeep]
      · have hshallow : existing.isDeep = true := by
          rcases Bool.eq_false_or_eq_true existing.isDeep with hb | hb
          · exact hb
          · exact absurd ⟨hdeep, hb⟩ hn
        simp [ParseContext.recordError, h, hdeep, hshallow]

/-- Witness for C3: a deep error (span 3 against attempt start 5)
replaces a stored shallow one. -/
theorem recordError_replacement_witness :
    (shallowCtx.recordError { span := 3, msg := "new" } 5).bestError =
      some { err := shallowCtx.enrichWithRule { span := 3, msg := "new" },
             isDeep := decide (((3:Nat) : Nat) ≠ 5) } := by
  exact ((recordError_replacement shallowCtx { span := 3, msg := "new" } 5).2
    { err := { span := 5, msg := "old" }, isDeep := false } rfl).1 ⟨by decide, rfl⟩

/-- C10: `not_check` saves the fatal flag and clears it before running
the inner parser on a fork, then unconditionally restores the saved flag
with the snapshotted scopes, rule stack and last span, regardless of the
inner outcome, and never advances the input; the outcome is inverted
(inner success becomes an "unexpected match" error, inner failure a
no-op success). -/
theorem notCheck_frame {α : Type} (p : Parser α) (input : Stream) (ctx : ParseContext) :
    (notCheck p input ctx).2.1 = input ∧
    (notCheck p input ctx).2.2.scopes = ctx.scopes ∧
    (notCheck p input ctx).2.2.ruleStack = ctx.ruleStack ∧
    (notCheck p input ctx).2.2.lastSpan = ctx.lastSpan ∧
    (notCheck p input ctx).2.2.isFatal = ctx.isFatal ∧
    (notCheck p input ctx).1 =
      (match (p input (ctx.setFatal false)).1 with
       | .ok _ => .error { span := input.pos, msg := "unexpected match" }
       | .error _ => .ok ()) := by
  rcases h : p input (ctx.setFatal false) with ⟨res, s1, c1⟩
  cases res with
  | ok v => simp [notCheck, h]
  | error e => simp [notCheck, h]

/-- C4 (amended): when the body of `attempt` fails with the fatal flag
raised, `attempt` propagates the error immediately and leaves the fatal
flag set for the caller, but it also restores the scopes, rule stack and
last span to the pre-attempt snapshot (the claim's "without restoring"
does not hold). -/
theorem attempt_fatal_behaviour {α : Type} (p : Parser α) (input : Stream)
    (ctx : ParseContext) (e : PError) (s : Stream) (c : ParseContext)
    (hrun : p input (ctx.setFatal false) = (.error e, s, c))
    (hfatal : c.isFatal = true) :
    attempt p input ctx =
      (.error e, input,
        { c with scopes := ctx.scopes, ruleStack := ctx.ruleStack,
                 lastSpan := ctx.lastSpan, isFatal := true }) :=
  attempt_err_fatal hrun hfatal

/-- Witness for the amended C4: a concrete fatally failing body. -/
theorem attempt_fatal_behaviour_witness :
    attempt fatalMutatingBody emptyStream ParseContext.new =
      (.error { span := 0, msg := "boom" }, emptyStream,
        { (fatalMutatingBody emptyStream (ParseContext.new.setFatal false)).2.2 with
            scopes := ParseContext.new.scopes,
            ruleStack := ParseContext.new.ruleStack,
            lastSpan := ParseContext.new.lastSpan, isFatal := true }) :=
  attempt_fatal_behaviour fatalMutatingBody emptyStream ParseContext.new
    { span := 0, msg := "boom" }
    emptyStream
    (fatalMutatingBody emptyStream (ParseContext.new.setFatal false)).2.2
    rfl rfl

/-- Counterexample to C4 as stated: on a body that mutates the scopes
and rule stack and fails fatally, `attempt` returns the error with the
fatal flag set but with scopes, rule stack and last span RESTORED to the
pre-attempt snapshot, not left in their mutated state. -/
theorem attempt_fatal_restores_counterexample :
    (attempt fatalMutatingBody emptyStream ParseContext.new).2.2.scopes =
        ParseContext.new.scopes ∧
    (attempt fatalMutatingBody emptyStream ParseContext.new).2.2.ruleStack =
        ParseContext.new.ruleStack ∧
    (attempt fatalMutatingBody emptyStream ParseContext.new).2.2.lastSpan =
        ParseContext.new.lastSpan ∧
    (attempt fatalMutatingBody emptyStream ParseContext.new).2.2.isFatal = true ∧
    (attempt fatalMutatingBody emptyStream ParseContext.new).1 =
        .error { span := 0, msg := "boom" } ∧
    (fatalMutatingBody emptyStream (ParseContext.new.setFatal false)).2.2.scopes ≠
        ParseContext.new.scopes ∧
    (fatalMutatingBody emptyStream (ParseContext.new.setFatal false)).2.2.ruleStack ≠
        ParseContext.new.ruleStack := by
  refine ⟨rfl, rfl, rfl, rfl, rfl, by decide, by decide⟩

/-- C1: the generated left-recursion elimination runs the base dispatch
once for the seed and then loops over the recursive-tail arms: a tail
that succeeds without advancing the cursor fails the rule with the
infinite-loop-detected error; a tail that succeeds while consuming
replaces the seed and restarts the loop from the first arm; when no tail
matches the loop exits with the current seed; and the example grammar
(base `integer`, tail `expr "-" term`) parses `"10 - 2 - 3"`
left-associatively to `(10-2)-3 = 5`. -/
theorem leftRecursion_loop :
    (parseExpr exprExampleInput = .ok 5) ∧
    (∀ (α : Type) (arm : RecArm α) (rest : List (RecArm α)) (lhs v : α)
        (input : Stream) (ctx : ParseContext) (s : Stream) (c : ParseContext) (fuel : Nat),
      (∀ tk, arm.peekTok = some tk → streamPeek input tk = true) →
      attempt (arm.body lhs) input ctx = (.ok (some v), s, c) →
      input.pos = s.pos →
      recLoop (arm :: rest) (fuel + 1) lhs input ctx =
        (.error { span := s.pos, msg := infiniteLoopMsg }, s, c)) ∧
    (∀ (α : Type) (arms : List (RecArm α)) (lhs v : α) (input s : Stream)
        (ctx c : ParseContext) (fuel : Nat),
      runArms arms lhs input ctx = .progress v s c →
      recLoop arms (fuel + 1) lhs input ctx = recLoop arms fuel v s c) ∧
    (∀ (α : Type) (arms : List (RecArm α)) (lhs : α) (input s : Stream)
        (ctx c : ParseContext) (fuel : Nat),
      runArms arms lhs input ctx = .noMatch s c →
      recLoop arms (fuel + 1) lhs input ctx = (.ok lhs, s, c)) := by
  refine ⟨by rfl, ?_, ?_, ?_⟩
  · intro α arm rest lhs v input ctx s c fuel hpeek hatt hpos
    have hrun : runArms (arm :: rest) lhs input ctx = .emptyMatch s c := by
      cases hpk : arm.peekTok with
      | none => simp only [runArms, hpk, hatt, hpos, if_pos]
      | some tk =>
          have := hpeek tk hpk
          simp only [runArms, hpk, this, if_true, hatt, hpos, if_pos]
    simp only [recLoop, hrun]
  · intro α arms lhs v input s ctx c fuel hrun
    simp only [recLoop, hrun]
  · intro α arms lhs input s ctx c fuel hrun
    simp only [recLoop, hrun]

/-- Witness for C1: a non-consuming tail triggers the infinite-loop
error; a consuming tail restarts the loop with the new seed; an empty
arm list exits with the seed. -/
theorem leftRecursion_loop_witness :
    recLoop [emptyMatchArm] 1 (0 : Int) emptyStream ParseContext.new =
      (.error { span := 0, msg := infiniteLoopMsg }, emptyStream, ParseContext.new) ∧
    recLoop [consumingArm] 2 (0 : Int) numStream ParseContext.new =
      recLoop [consumingArm] 1 7 { pos := 1, toks := [] } (ParseContext.new.recordSpan 0) ∧
    recLoop ([] : List (RecArm Int)) 1 0 emptyStream ParseContext.new =
      (.ok 0, emptyStream, ParseContext.new) := by
  refine ⟨?_, ?_, ?_⟩
  · exact leftRecursion_loop.2.1 Int emptyMatchArm [] 0 0 emptyStream ParseContext.new
      emptyStream ParseContext.new 0
      (fun tk h => by exact Option.noConfusion h) rfl rfl
  · exact leftRecursion_loop.2.2.1 Int [consumingArm] 0 7 numStream
      { pos := 1, toks := [] } ParseContext.new (ParseContext.new.recordSpan 0) 1 rfl
  · exact leftRecursion_loop.2.2.2 Int [] 0 emptyStream emptyStream
      ParseContext.new ParseContext.new 0 rfl

/-- The speculative Repeat loop terminates successfully for an inner
parser that never raises the fatal flag and always consumes on success,
given fuel exceeding the remaining input length. -/
theorem repeatAttemptGo_total {α : Type} (inner : Parser α)
    (hnf : NonFatal inner) (hc : Consuming inner) :
    ∀ fuel input, input.toks.length < fuel → ∀ acc ctx,
      ∃ vs s c, repeatAttemptGo inner fuel acc input ctx = (.ok vs, s, c) := by
  intro fuel
  induction fuel with
  | zero => intro input h; omega
  | succ f ih =>
      intro input h acc ctx
      rcases hi : inner input (ctx.setFatal false) with ⟨res, s1, c1⟩
      cases res with
      | ok v =>
          have hs1 : s1.toks.length < input.toks.length := hc input _ v s1 c1 hi
          have hatt := attempt_ok (p := inner) hi
          rcases ih s1 (by omega) (v :: acc) (c1.setFatal ctx.isFatal) with ⟨vs, s2, c2, hr⟩
          exact ⟨vs, s2, c2, by simp only [repeatAttemptGo, hatt, hr]⟩
      | error e =>
          have hf : c1.isFatal = false := by
            have hx := hnf input (ctx.setFatal false) (by simp [ParseContext.setFatal])
            rw [hi] at hx
            exact hx
          have hatt := attempt_err_nonfatal (p := inner) hi hf
          exact ⟨acc.reverse, input,
            { (c1.setFatal ctx.isFatal).recordError e input.pos with
                scopes := ctx.scopes, ruleStack := ctx.ruleStack,
                lastSpan := ctx.lastSpan },
            by simp only [repeatAttemptGo, hatt]⟩

/-- C8: a Repeat pattern succeeds with an empty sequence when zero
iterations of the inner pattern match (both the speculative and the
peek-guarded loop), and — for an inner parser that stays non-fatal and
consumes on success — always succeeds; a Plus pattern fails the whole
pattern when its mandatory first iteration fails, and yields a
single-element sequence when exactly one iteration matches. -/
theorem repeatPlus_cardinality :
    (∀ (α : Type) (inner : Parser α) (input : Stream) (ctx : ParseContext)
        (s : Stream) (c : ParseContext) (fuel : Nat),
      attempt inner input ctx = (.ok none, s, c) →
      repeatAttempt inner (fuel + 1) input ctx = (.ok [], s, c)) ∧
    (∀ (α : Type) (tk : String) (inner : Parser α) (input : Stream)
        (ctx : ParseContext) (fuel : Nat),
      streamPeek input tk = false →
      repeatPeek tk inner (fuel + 1) input ctx = (.ok [], input, ctx)) ∧
    (∀ (α : Type) (inner : Parser α) (input : Stream) (ctx : ParseContext)
        (e : PError) (s : Stream) (c : ParseContext) (fuel : Nat),
      inner input ctx = (.error e, s, c) →
      plusAttempt inner fuel input ctx = (.error e, s, c) ∧
      ∀ tk, plusPeek tk inner fuel input ctx = (.error e, s, c)) ∧
    (∀ (α : Type) (inner : Parser α) (input : Stream) (ctx : ParseContext) (v : α)
        (s : Stream) (c : ParseContext) (s2 : Stream) (c2 : ParseContext) (fuel : Nat),
      inner input ctx = (.ok v, s, c) →
      attempt inner s c = (.ok none, s2, c2) →
      plusAttempt inner (fuel + 1) input ctx = (.ok [v], s2, c2)) ∧
    (∀ (α : Type) (tk : String) (inner : Parser α) (input : Stream)
        (ctx : ParseContext) (v : α) (s : Stream) (c : ParseContext) (fuel : Nat),
      inner input ctx = (.ok v, s, c) →
      streamPeek s tk = false →
      plusPeek tk inner (fuel + 1) input ctx = (.ok [v], s, c)) ∧
    (∀ (α : Type) (inner : Parser α), NonFatal inner → Consuming inner →
      ∀ (input : Stream) (ctx : ParseContext) (fuel : Nat),
        input.toks.length < fuel →
        ∃ vs s c, repeatAttempt inner fuel input ctx = (.ok vs, s, c)) := by
  refine ⟨?_, ?_, ?_, ?_, ?_, ?_⟩
  · intro α inner input ctx s c fuel hatt
    simp only [repeatAttempt, repeatAttemptGo, hatt, List.reverse_nil]
  · intro α tk inner input ctx fuel hpk
    simp only [repeatPeek, repeatPeekGo, hpk, Bool.false_eq_true, if_false, List.reverse_nil]
  · intro α inner input ctx e s c fuel hi
    refine ⟨?_, ?_⟩
    · simp only [plusAttempt, hi]
    · intro tk
      simp only [plusPeek, hi]
  · intro α inner input ctx v s c s2 c2 fuel hi hatt
    simp only [plusAttempt, hi, repeatAttemptGo, hatt, List.reverse_cons, List.reverse_nil,
      List.nil_append]
  · intro α tk inner input ctx v s c fuel hi hpk
    simp only [plusPeek, hi, repeatPeekGo, hpk, Bool.false_eq_true, if_false,
      List.reverse_cons, List.reverse_nil, List.nil_append]
  · intro α inner hnf hc input ctx fuel hfuel
    exact repeatAttemptGo_total inner hnf hc fuel input hfuel [] ctx

/-- The built-in integer parser never raises the fatal flag. -/
theorem intP_nonFatal : NonFatal intP := by
  intro input ctx h
  rcases input with ⟨pos, toks⟩
  cases toks with
  | nil => simpa [intP] using h
  | cons t rest =>
      cases t with
      | num n => simpa [intP, ParseContext.recordSpan] using h
      | sym s => simpa [intP] using h

/-- The built-in integer parser consumes one token whenever it
succeeds. -/
theorem intP_consuming : Consuming intP := by
  intro input ctx v s c h
  rcases input with ⟨pos, toks⟩
  cases toks with
  | nil => simp [intP] at h
  | cons t rest =>
      cases t with
      | num n =>
          simp only [intP, Prod.mk.injEq, Except.ok.injEq] at h
          obtain ⟨-, hs, -⟩ := h
          subst hs
          simp
      | sym str => simp [intP] at h

/-- Witness for C8: `integer*` on empty input succeeds with `[]`,
`integer+` on empty input fails, `integer+` on one integer yields `[7]`,
the peek-guarded `*` with a non-matching head succeeds with `[]`, and
the always-succeeds conclusion holds on a concrete mixed stream. -/
theorem repeatPlus_cardinality_witness :
    repeatAttempt intP 1 emptyStream ParseContext.new =
      (.ok [], emptyStream,
        { ParseContext.new with
            bestError := some { err := { span := 0, msg := "expected integer" },
                                isDeep := false } }) ∧
    plusAttempt intP 1 emptyStream ParseContext.new =
      (.error { span := 0, msg := "expected integer" }, emptyStream, ParseContext.new) ∧
    plusAttempt intP 2 numStream ParseContext.new =
      (.ok [7], { pos := 1, toks := [] },
        { ParseContext.new with
            lastSpan := some 0,
            bestError := some { err := { span := 1, msg := "expected integer" },
                                isDeep := false } }) ∧
    repeatPeek "x" intP 3 numStream ParseContext.new =
      (.ok [], numStream, ParseContext.new) ∧
    (∃ vs s c,
      repeatAttempt intP 4 { pos := 0, toks := [Tok.num 1, Tok.num 2, Tok.sym "x"] }
        ParseContext.new = (.ok vs, s, c)) := by
  refine ⟨?_, ?_, ?_, ?_, ?_⟩
  · exact repeatPlus_cardinality.1 Int intP emptyStream ParseContext.new emptyStream
      _ 0 rfl
  · exact (repeatPlus_cardinality.2.2.1 Int intP emptyStream ParseContext.new
      { span := 0, msg := "expected integer" } emptyStream ParseContext.new 1 rfl).1
  · exact repeatPlus_cardinality.2.2.2.1 Int intP numStream ParseContext.new 7
      { pos := 1, toks := [] } (ParseContext.new.recordSpan 0) { pos := 1, toks := [] }
      _ 1 rfl rfl
  · exact repeatPlus_cardinality.2.1 Int "x" intP numStream ParseContext.new 2 rfl
  · exact repeatPlus_cardinality.2.2.2.2.2 Int intP intP_nonFatal intP_consuming
      { pos := 0, toks := [Tok.num 1, Tok.num 2, Tok.sym "x"] } ParseContext.new 4
      (by decide)

/-- Counterexample to C2's example: in the grammar
`"commit" "success" -> A | "commit" "failure" -> B` both variants share
the first-token key `"commit"` (its tally is 2, so neither variant is
unique), the rule compiles to the speculative path, and on the input
`commit failure` the dispatch falls through to the second alternative
and yields `B` — not a parse error. -/
theorem uniqueDispatch_counterexample :
    keyCount (variantKeys commitVariants) "commit" = 2 ∧
    (variantsDispatch envNone 10 commitVariants true commitInput ParseContext.new).1 =
      .ok "B" := by
  exact ⟨rfl, rfl⟩

/-- C2 (amended): for a cut-free variant whose first-token key IS unique
among its non-nullable siblings, once the leading-token peek matches,
any failure of the variant's body is final for the rule invocation: the
fatal flag is set and the error is returned, with no later sibling ever
tried (the conclusion does not depend on the remaining variants).  The
claim's example grammar, however, has a shared key and backtracks (see
the counterexample). -/
theorem uniqueDispatch_commit {α : Type} (env : String → Parser Unit) (fuel : Nat)
    (pat : List Pat) (act : α) (rest : List (List Pat × α)) (isTop : Bool)
    (input : Stream) (ctx : ParseContext) (tk k : String) (e : PError)
    (s : Stream) (c : ParseContext)
    (hnc : findCut pat = none)
    (hnul : headNullable pat = false)
    (hpk : pat.head?.bind getSimplePeek = some tk)
    (hks : getPeekTokenString pat = some k)
    (huniq : keyCount (variantKeys ((pat, act) :: rest)) k = 1)
    (hpeek : streamPeek input tk = true)
    (hbody : pseq (seqRun env fuel pat) (fun _ => pureP act) input ctx = (.error e, s, c)) :
    variantsDispatch env (fuel + 1) ((pat, act) :: rest) isTop input ctx =
      (.error e, s, c.setFatal true) := by
  unfold variantsDispatch
  simp only [dispatchArms, hnc, hnul, Bool.false_eq_true, if_false, hpk, hks, huniq,
    beq_self_eq_true, if_true, Option.getD_some, hpeek, commitRun, hbody]

/-- Witness for the amended C2: variants `"go" "x" -> A | "stop" -> B`
have unique keys; on input `go y` the first variant's peek matches, its
body fails, and the dispatch returns that error with the fatal flag set
(alternative `B` is not tried). -/
theorem uniqueDispatch_commit_witness :
    variantsDispatch envNone 10 uniqueVariants true uniqueInput ParseContext.new =
      (.error { span := 1, msg := "expected 'x'" }, { pos := 1, toks := [Tok.sym "y"] },
        (ParseContext.new.recordSpan 0).setFatal true) := by
  exact uniqueDispatch_commit envNone 9 [Pat.lit "go" 0, Pat.lit "x" 1] "A"
    [([Pat.lit "stop" 2], "B")] true uniqueInput ParseContext.new "go" "go"
    { span := 1, msg := "expected 'x'" } { pos := 1, toks := [Tok.sym "y"] }
    (ParseContext.new.recordSpan 0) rfl rfl rfl rfl rfl rfl rfl

/-- Counterexample to C7: on a grammar with no duplicate names containing
both an argument-count mismatch and an undefined-rule reference, the
validator reports the undefined-rule error, not the argument-count error
(the undefined pass runs before the argument-count pass). -/
theorem validatorOrder_counterexample :
    validate builtinsFixture bothErrorsGrammar =
      .error { span := 4, msgs := ["Undefined rule: 'nope'"] } ∧
    checkArgCounts builtinsFixture bothErrorsGrammar =
      some { span := 2, msgs := ["Rule 'sub' expects 0 argument(s), but got 1."] } ∧
    ({ span := 4, msgs := ["Undefined rule: 'nope'"] } : VError) ≠
      { span := 2, msgs := ["Rule 'sub' expects 0 argument(s), but got 1."] } := by
  refine ⟨rfl, rfl, by decide⟩

/-- C7 (amended): the validator returns the first error found in the
fixed order (1) duplicate rule name, (2) undefined rule reference
(skipped when the grammar inherits), (3) argument-count mismatch; in
particular, for a grammar with no duplicate names containing both an
argument-count mismatch and an undefined-rule reference, the
undefined-rule error is the one reported. -/
theorem validatorOrder (builtins : List String) (g : MGrammar) :
    (∀ e, checkDuplicates g.rules [] = some e → validate builtins g = .error e) ∧
    (∀ e e2, g.inherits = none → checkDuplicates g.rules [] = none →
      checkUndefined builtins g = some e → checkArgCounts builtins g = some e2 →
      validate builtins g = .error e) ∧
    (∀ e, checkDuplicates g.rules [] = none →
      (if g.inherits.isNone then checkUndefined builtins g else none) = none →
      checkArgCounts builtins g = some e →
      validate builtins g = .error e) := by
  refine ⟨?_, ?_, ?_⟩
  · intro e hdup
    simp [validate, hdup]
  · intro e e2 hinh hdup hundef hargs
    simp [validate, hdup, hinh, hundef]
  · intro e hdup hundef hargs
    cases hi : g.inherits with
    | none =>
        rw [hi] at hundef
        simp only [Option.isNone_none, if_true] at hundef
        simp [validate, hdup, hi, hundef, hargs]
    | some p => simp [validate, hdup, hi, hargs]

/-- Witness for the amended C7: the fixture grammar containing both
error kinds reports its undefined-rule error. -/
theorem validatorOrder_witness :
    validate builtinsFixture bothErrorsGrammar =
      .error { span := 4, msgs := ["Undefined rule: 'nope'"] } := by
  exact (validatorOrder builtinsFixture bothErrorsGrammar).2.1
    { span := 4, msgs := ["Undefined rule: 'nope'"] }
    { span := 2, msgs := ["Rule 'sub' expects 0 argument(s), but got 1."] }
    rfl rfl rfl rfl

/-- A failed search only marks nodes with no direct edge to the target
as visited. -/
theorem search_none_inv (E : String → List String) (target : String) : ∀ fuel : Nat,
    (∀ cur vis, (∀ v ∈ vis, target ∉ E v) →
      (searchBack E target fuel cur vis).1 = none →
      ∀ v ∈ (searchBack E target fuel cur vis).2, target ∉ E v) ∧
    (∀ ns vis, (∀ v ∈ vis, target ∉ E v) →
      (searchList E target fuel ns vis).1 = none →
      ∀ v ∈ (searchList E target fuel ns vis).2, target ∉ E v) := by
  intro fuel
  induction fuel with
  | zero =>
      refine ⟨?_, ?_⟩
      · intro cur vis hinv _
        simpa [searchBack] using hinv
      · intro ns vis hinv _
        cases ns with
        | nil => simpa [searchList] using hinv
        | cons n ns => simpa [searchList] using hinv
  | succ f ih =>
      refine ⟨?_, ?_⟩
      · intro cur vis hinv hnone
        by_cases ht : target ∈ E cur
        · simp [searchBack, ht] at hnone
        · have hinv2 : ∀ v ∈ cur :: vis, target ∉ E v := by
            intro v hv
            rcases List.mem_cons.mp hv with rfl | hv2
            · exact ht
            · exact hinv v hv2
          rcases hsl : searchList E target f (E cur) (cur :: vis) with ⟨op, vis2⟩
          cases op with
          | some p => simp [searchBack, ht, hsl] at hnone
          | none =>
              have := ih.2 (E cur) (cur :: vis) hinv2
              rw [hsl] at this
              simpa [searchBack, ht, hsl] using this rfl
      · intro ns vis hinv hnone
        cases ns with
        | nil => simpa [searchList] using hinv
        | cons n ns =>
            by_cases hv : n ∈ vis
            · have := ih.2 ns vis hinv
              rw [searchList] at hnone ⊢
              simp only [hv, if_true] at hnone ⊢
              exact this hnone
            · rcases hsb : searchBack E target f n vis with ⟨op, vis2⟩
              cases op with
              | some p =>
                  rw [searchList] at hnone
                  simp [hv, hsb] at hnone
              | none =>
                  have hinv2 : ∀ v ∈ vis2, target ∉ E v := by
                    have := ih.1 n vis hinv
                    rw [hsb] at this
                    exact this rfl
                  have := ih.2 ns vis2 hinv2
                  rw [searchList] at hnone ⊢
                  simp only [hv, if_false, hsb, Bool.false_eq_true] at hnone ⊢
                  exact this hnone

/-- Completeness of the worklist search for a one-step return: when some
node of the worklist has a direct edge to the target, and no visited
node has one, the search succeeds, given fuel exceeding the worklist
length. -/
theorem searchList_finds (E : String → List String) (target n : String)
    (hn : target ∈ E n) :
    ∀ (ns : List String) (fuel : Nat) (vis : List String), n ∈ ns →
      ns.length < fuel → (∀ v ∈ vis, target ∉ E v) →
      (searchList E target fuel ns vis).1.isSome := by
  intro ns
  induction ns with
  | nil => intro fuel vis h; simp at h
  | cons m ns ih =>
      intro fuel vis hmem hlen hinv
      cases fuel with
      | zero => simp at hlen
      | succ f =>
          have hf : ns.length < f := by simpa using hlen
          have hfpos : 0 < f := Nat.lt_of_le_of_lt (Nat.zero_le _) hf
          by_cases hv : m ∈ vis
          · have hne : n ≠ m := by
              rintro rfl
              exact hinv n hv hn
            have hns : n ∈ ns := by
              rcases List.mem_cons.mp hmem with rfl | h
              · exact absurd rfl hne
              · exact h
            rw [searchList]
            simp only [hv, if_true]
            exact ih f vis hns hf hinv
          · obtain ⟨f2, rfl⟩ : ∃ f2, f = f2 + 1 :=
              ⟨f - 1, by omega⟩
            by_cases htm : target ∈ E m
            · rw [searchList]
              simp [hv, searchBack, htm]
            · have hne : n ≠ m := by
                rintro rfl
                exact htm hn
              have hns : n ∈ ns := by
                rcases List.mem_cons.mp hmem with rfl | h
                · exact absurd rfl hne
                · exact h
              rcases hsb : searchBack E target (f2 + 1) m vis with ⟨op, vis2⟩
              cases op with
              | some p =>
                  rw [searchList]
                  simp [hv, hsb]
              | none =>
                  have hinv2 : ∀ v ∈ vis2, target ∉ E v := by
                    have := (search_none_inv E target (f2 + 1)).1 m vis hinv
                    rw [hsb] at this
                    exact this rfl
                  rw [searchList]
                  simp only [hv, if_false, hsb, Bool.false_eq_true]
                  exact ih (f2 + 1) vis2 hns hf hinv2

/-- A successful search returns a nonempty path. -/
theorem search_some_ne_nil (E : String → List String) (target : String) :
    ∀ fuel : Nat,
      (∀ cur vis p vis2, searchBack E target fuel cur vis = (some p, vis2) → p ≠ []) ∧
      (∀ ns vis p vis2, searchList E target fuel ns vis = (some p, vis2) → p ≠ []) := by
  intro fuel
  induction fuel with
  | zero =>
      refine ⟨?_, ?_⟩
      · intro cur vis p vis2 h
        simp [searchBack] at h
      · intro ns vis p vis2 h
        cases ns with
        | nil => simp [searchList] at h
        | cons n ns => simp [searchList] at h
  | succ f ih =>
      refine ⟨?_, ?_⟩
      · intro cur vis p vis2 h
        by_cases ht : target ∈ E cur
        · simp [searchBack, ht] at h
          simp [← h.1]
        · rcases hsl : searchList E target f (E cur) (cur :: vis) with ⟨op, v2⟩
          cases op with
          | some q =>
              simp [searchBack, ht, hsl] at h
              simp [← h.1]
          | none => simp [searchBack, ht, hsl] at h
      · intro ns vis p vis2 h
        cases ns with
        | nil => simp [searchList] at h
        | cons n ns =>
            by_cases hv : n ∈ vis
            · rw [searchList] at h
              simp only [hv, if_true] at h
              exact ih.2 ns vis p vis2 h
            · rcases hsb : searchBack E target f n vis with ⟨op, v2⟩
              cases op with
              | some q =>
                  rw [searchList] at h
                  simp only [hv, if_false, hsb, Bool.false_eq_true] at h
                  have : q = p := by
                    simpa using congrArg Prod.fst h
                  exact this ▸ ih.1 n vis q v2 hsb
              | none =>
                  rw [searchList] at h
                  simp only [hv, if_false, hsb, Bool.false_eq_true] at h
                  exact ih.2 ns v2 p vis2 h

/-- C5: a grammar whose first-call graph has an indirect cycle (a
variant of rule `a` begins with a call to rule `b` and a variant of `b`
begins with a call to `a`, `a ≠ b`) is rejected — provided the earlier
validation passes succeed — with a hard error reported at the first rule
of the discovered cycle, whose message lists the full cycle.  Base
variants next to the recursive ones do not prevent the rejection. -/
theorem indirectCycle_rejected (builtins : List String) (g : MGrammar) (a b : String)
    (hdup : checkDuplicates g.rules [] = none)
    (hundef : (if g.inherits.isNone then checkUndefined builtins g else none) = none)
    (hargs : checkArgCounts builtins g = none)
    (hab : b ≠ a)
    (hEb : b ∈ edgesOf g a) (hEa : a ∈ edgesOf g b) :
    ∃ c, c ∈ cyclesOf g ∧ 1 < c.length ∧
      validate builtins g =
        .error { span := ruleNameSpan g (c.headD ""), msgs := [cycleMsg c] } := by
  obtain ⟨ra, hra⟩ : ∃ ra, findRule g a = some ra := by
    rcases h : findRule g a with _ | ra
    · rw [edgesOf, h] at hEb
      simp at hEb
    · exact ⟨ra, rfl⟩
  have hmem : ra ∈ g.rules := List.mem_of_find?_eq_some hra
  have hname : ra.name = a := by
    have := List.find?_some hra
    simpa using this
  have hEfc : edgesOf g a = firstCallees ra := by
    rw [edgesOf, hra]
  have hlen1 : (firstCallees ra).length ≤ edgeTotal g := by
    refine List.single_le_sum (fun x _ => Nat.zero_le x) _ ?_
    exact List.mem_map_of_mem (fun r => (firstCallees r).length) hmem
  have hbound : ((edgesOf g a).filter (fun s => s ≠ a)).length < edgeTotal g + 1 := by
    rw [hEfc]
    have h1 := List.length_filter_le (fun s => decide (s ≠ a)) (firstCallees ra)
    omega
  have hbf : b ∈ (edgesOf g a).filter (fun s => s ≠ a) :=
    List.mem_filter.mpr ⟨hEb, by simpa using hab⟩
  have hsome :=
    searchList_finds (edgesOf g) a b hEa ((edgesOf g a).filter (fun s => s ≠ a))
      (edgeTotal g + 1) [] hbf hbound (by simp)
  rcases hsl : searchList (edgesOf g) a (edgeTotal g + 1)
      ((edgesOf g a).filter (fun s => s ≠ a)) [] with ⟨op, vis2⟩
  rw [hsl] at hsome
  cases op with
  | none => simp at hsome
  | some p =>
      have hp : p ≠ [] := (search_some_ne_nil (edgesOf g) a (edgeTotal g + 1)).2 _ _ _ _ hsl
      have hcf : (a :: p) ∈ cyclesFor g ra := by
        unfold cyclesFor
        simp only [hname, hsl]
        exact List.mem_append_right _ (by simp)
      have hmemC : (a :: p) ∈ cyclesOf g :=
        List.mem_flatMap.mpr ⟨ra, hmem, hcf⟩
      have hlenC : 1 < (a :: p).length := by
        have := List.length_pos.mpr hp
        simp only [List.length_cons]
        omega
      have hfindSome : ((cyclesOf g).find? (fun c => 1 < c.length)).isSome :=
        List.find?_isSome.mpr ⟨a :: p, hmemC, by simpa using hlenC⟩
      obtain ⟨c0, hfind⟩ := Option.isSome_iff_exists.mp hfindSome
      have hc0mem : c0 ∈ cyclesOf g := List.mem_of_find?_eq_some hfind
      have hc0len : 1 < c0.length := by
        have := List.find?_some hfind
        simpa using this
      have hcyc : cycleError g =
          some { span := ruleNameSpan g (c0.headD ""), msgs := [cycleMsg c0] } := by
        rw [cycleError, hfind]
        rfl
      refine ⟨c0, hc0mem, hc0len, ?_⟩
      simp only [validate, hdup, hundef, hargs, hcyc]

/-- Witness for C5: the two-rule grammar with `a -> b -> a` (each rule
also having a literal base variant) is rejected with the cycle error. -/
theorem indirectCycle_rejected_witness :
    ∃ c, c ∈ cyclesOf cycleGrammar ∧ 1 < c.length ∧
      validate builtinsFixture cycleGrammar =
        .error { span := ruleNameSpan cycleGrammar (c.headD ""), msgs := [cycleMsg c] } := by
  exact indirectCycle_rejected builtinsFixture cycleGrammar "a" "b" rfl rfl rfl
    (by decide) (by decide) (by decide)

set_option maxHeartbeats 1600000 in
mutual

/-- Structural pattern equality is reflexive. -/
theorem patBeqRefl : ∀ p : Pat, patBeq p p = true
  | .cut _ => by simp [patBeq]
  | .lit _ _ => by simp [patBeq]
  | .ruleCall b n a s => by simp [patBeq, patSeqBeqRefl a]
  | .group x _ => by simp [patBeq, patAltsBeqRefl x]
  | .bracketed x _ => by simp [patBeq, patSeqBeqRefl x]
  | .braced x _ => by simp [patBeq, patSeqBeqRefl x]
  | .parenthesized x _ => by simp [patBeq, patSeqBeqRefl x]
  | .optional x _ => by simp [patBeq, patBeqRefl x]
  | .repeatP x _ => by simp [patBeq, patBeqRefl x]
  | .plus x _ => by simp [patBeq, patBeqRefl x]
  | .spanBinding x _ _ => by simp [patBeq, patBeqRefl x]
  | .recover b x y _ => by simp [patBeq, patBeqRefl x, patBeqRefl y]
  | .peek x _ => by simp [patBeq, patBeqRefl x]
  | .notP x _ => by simp [patBeq, patBeqRefl x]
termination_by structural p => p

/-- Sequence equality is reflexive. -/
theorem patSeqBeqRefl : ∀ l : List Pat, patSeqBeq l l = true
  | [] => by simp [patSeqBeq]
  | p :: ps => by simp [patSeqBeq, patBeqRefl p, patSeqBeqRefl ps]
termination_by structural l => l

/-- Alternative-list equality is reflexive. -/
theorem patAltsBeqRefl : ∀ x : List (List Pat), patAltsBeq x x = true
  | [] => by simp [patAltsBeq]
  | s :: rest => by simp [patAltsBeq, patSeqBeqRefl s, patAltsBeqRefl rest]
termination_by structural l => l

end

/-- A sequence prefix-matches itself extended by anything. -/
theorem seqPrefixBeq_append (as_ bs : List Pat) :
    seqPrefixBeq as_ (as_ ++ bs) = true := by
  induction as_ with
  | nil => simp [seqPrefixBeq]
  | cons a t ih => simp [seqPrefixBeq, patBeqRefl a, ih]

/-- A sequence prefix-matches itself. -/
theorem seqPrefixBeq_refl (s : List Pat) : seqPrefixBeq s s = true := by
  simpa using seqPrefixBeq_append s []

/-- A strictly longer sequence never prefix-matches its own prefix. -/
theorem seqPrefixBeq_longer (as_ ext : List Pat) (h : ext ≠ []) :
    seqPrefixBeq (as_ ++ ext) as_ = false := by
  induction as_ with
  | nil =>
      cases ext with
      | nil => exact absurd rfl h
      | cons e es => simp [seqPrefixBeq]
  | cons a t ih => simp [seqPrefixBeq, patBeqRefl a, ih]

/-- Combining a list of errors keeps every message of every member. -/
theorem combineErrors_mem (l : List VError) (v : VError) (m : String)
    (hv : v ∈ l) (hm : m ∈ v.msgs) :
    ∃ e, combineErrors l = some e ∧ m ∈ e.msgs := by
  cases l with
  | nil => simp at hv
  | cons x rest =>
      refine ⟨_, rfl, ?_⟩
      rcases List.mem_cons.mp hv with rfl | hv2
      · simp [hm]
      · simp only [List.mem_append]
        right
        exact List.mem_flatMap.mpr ⟨v, hv2, hm⟩

/-- A flagged pair contributes its message to the rule's shadowing
messages. -/
theorem ruleShadowMsgs_mem (vs : List (List Pat)) (i j : Nat) (m : String)
    (hij : i < j) (hj : j < vs.length)
    (hpair : shadowPairError i j (vs.getD i []) (vs.getD j []) = some m) :
    m ∈ ruleShadowMsgs vs := by
  unfold ruleShadowMsgs
  apply List.mem_flatMap.mpr
  refine ⟨i, List.mem_range.mpr (by omega), ?_⟩
  apply List.mem_filterMap.mpr
  refine ⟨j, List.mem_range.mpr hj, ?_⟩
  rw [if_pos hij]
  simpa [List.getD] using hpair

/-- A rule's shadowing message appears among the grammar's analysis
errors. -/
theorem shadowErrors_mem (g : MGrammar) (r : MRule) (m : String)
    (hr : r ∈ g.rules) (hm : m ∈ ruleShadowMsgs r.variants) :
    ({ span := r.nameSpan, msgs := [m] } : VError) ∈ shadowErrors g := by
  unfold shadowErrors
  exact List.mem_flatMap.mpr ⟨r, hr, List.mem_map_of_mem _ hm⟩

/-- C6: a rule in which an alternative is identical to a later sibling is
rejected with "Alternative i and j are identical"; one whose alternative
is a strict prefix of a later sibling is rejected with "Alternative i
shadows Alternative j"; and the reverse order — the longer alternative
listed before its own strict prefix — is accepted (all provided the
earlier validation stages pass). -/
theorem shadowing_detection (builtins : List String) :
    (∀ (g : MGrammar) (r : MRule) (i j : Nat),
      g.inherits = none →
      checkDuplicates g.rules [] = none →
      checkUndefined builtins g = none →
      checkArgCounts builtins g = none →
      cycleError g = none →
      r ∈ g.rules → i < j → j < r.variants.length →
      r.variants.getD i [] = r.variants.getD j [] →
      ∃ e, validate builtins g = .error e ∧
        ("Alternative " ++ toString (i + 1) ++ " and " ++ toString (j + 1) ++
          " are identical") ∈ e.msgs) ∧
    (∀ (g : MGrammar) (r : MRule) (i j : Nat) (ext : List Pat),
      g.inherits = none →
      checkDuplicates g.rules [] = none →
      checkUndefined builtins g = none →
      checkArgCounts builtins g = none →
      cycleError g = none →
      r ∈ g.rules → i < j → j < r.variants.length →
      ext ≠ [] →
      r.variants.getD j [] = r.variants.getD i [] ++ ext →
      ∃ e, validate builtins g = .error e ∧
        ("Alternative " ++ toString (i + 1) ++ " shadows Alternative " ++
          toString (j + 1)) ∈ e.msgs) ∧
    (∀ (gname rname : String) (nsp : Nat) (sa ext : List Pat),
      ext ≠ [] →
      checkUndefined builtins
        { name := gname, inherits := none,
          rules := [{ name := rname, nameSpan := nsp, params := [],
                      variants := [sa ++ ext, sa] }] } = none →
      checkArgCounts builtins
        { name := gname, inherits := none,
          rules := [{ name := rname, nameSpan := nsp, params := [],
                      variants := [sa ++ ext, sa] }] } = none →
      cycleError
        { name := gname, inherits := none,
          rules := [{ name := rname, nameSpan := nsp, params := [],
                      variants := [sa ++ ext, sa] }] } = none →
      validate builtins
        { name := gname, inherits := none,
          rules := [{ name := rname, nameSpan := nsp, params := [],
                      variants := [sa ++ ext, sa] }] } = .ok ()) := by
  refine ⟨?_, ?_, ?_⟩
  · intro g r i j hinh hdup hundef hargs hcyc hr hij hj hident
    have hpair : shadowPairError i j (r.variants.getD i []) (r.variants.getD j []) =
        some ("Alternative " ++ toString (i + 1) ++ " and " ++ toString (j + 1) ++
          " are identical") := by
      rw [hident]
      unfold shadowPairError
      rw [seqPrefixBeq_refl]
      simp
    have hm := ruleShadowMsgs_mem r.variants i j _ hij hj hpair
    have hve := shadowErrors_mem g r _ hr hm
    obtain ⟨e, hce, hme⟩ := combineErrors_mem (shadowErrors g)
      { span := r.nameSpan,
        msgs := ["Alternative " ++ toString (i + 1) ++ " and " ++ toString (j + 1) ++
          " are identical"] }
      ("Alternative " ++ toString (i + 1) ++ " and " ++ toString (j + 1) ++
        " are identical") hve (by simp)
    refine ⟨e, ?_, hme⟩
    simp only [validate, hdup, hinh, Option.isNone_none, if_true, hundef, hargs, hcyc, hce]
  · intro g r i j ext hinh hdup hundef hargs hcyc hr hij hj hext hsb
    have hpair : shadowPairError i j (r.variants.getD i []) (r.variants.getD j []) =
        some ("Alternative " ++ toString (i + 1) ++ " shadows Alternative " ++
          toString (j + 1)) := by
      rw [hsb]
      unfold shadowPairError
      rw [seqPrefixBeq_append]
      have hlen : ¬((r.variants.getD i []).length =
          ((r.variants.getD i []) ++ ext).length) := by
        have : 0 < ext.length := List.length_pos.mpr hext
        simp only [List.length_append]
        omega
      simp only [eq_self_iff_true, if_true]
      rw [if_neg hlen]
    have hm := ruleShadowMsgs_mem r.variants i j _ hij hj hpair
    have hve := shadowErrors_mem g r _ hr hm
    obtain ⟨e, hce, hme⟩ := combineErrors_mem (shadowErrors g)
      { span := r.nameSpan,
        msgs := ["Alternative " ++ toString (i + 1) ++ " shadows Alternative " ++
          toString (j + 1)] }
      ("Alternative " ++ toString (i + 1) ++ " shadows Alternative " ++
        toString (j + 1)) hve (by simp)
    refine ⟨e, ?_, hme⟩
    simp only [validate, hdup, hinh, Option.isNone_none, if_true, hundef, hargs, hcyc, hce]
  · intro gname rname nsp sa ext hext hundef hargs hcyc
    have hdup : checkDuplicates
        [({ name := rname, nameSpan := nsp, params := [],
            variants := [sa ++ ext, sa] } : MRule)] [] = none := by
      simp [checkDuplicates]
    have hmsgs : ruleShadowMsgs [sa ++ ext, sa] = [] := by
      unfold ruleShadowMsgs
      have h2 : List.range 2 = [0, 1] := rfl
      rw [show ([sa ++ ext, sa] : List (List Pat)).length = 2 from rfl, h2]
      simp [shadowPairError, seqPrefixBeq_longer sa ext hext]
    have hsh : shadowErrors
        { name := gname, inherits := none,
          rules := [{ name := rname, nameSpan := nsp, params := [],
                      variants := [sa ++ ext, sa] }] } = [] := by
      unfold shadowErrors
      simp [hmsgs]
    simp only [validate, hdup, hundef, hargs, hcyc, hsh, Option.isNone_none, if_true,
      combineErrors]

/-- Witness for C6: the identical pair and the shadowing pair are
rejected with their messages; the reversed order is accepted. -/
theorem shadowing_detection_witness :
    (∃ e, validate builtinsFixture
        (oneRuleGrammar [[Pat.lit "a" 1], [Pat.lit "a" 1]]) = .error e ∧
      ("Alternative " ++ toString 1 ++ " and " ++ toString 2 ++ " are identical") ∈ e.msgs) ∧
    (∃ e, validate builtinsFixture
        (oneRuleGrammar [[Pat.lit "a" 1], [Pat.lit "a" 1, Pat.lit "b" 2]]) = .error e ∧
      ("Alternative " ++ toString 1 ++ " shadows Alternative " ++ toString 2) ∈ e.msgs) ∧
    validate builtinsFixture
        (oneRuleGrammar [[Pat.lit "a" 1, Pat.lit "b" 2], [Pat.lit "a" 1]]) = .ok () := by
  refine ⟨?_, ?_, ?_⟩
  · exact (shadowing_detection builtinsFixture).1
      (oneRuleGrammar [[Pat.lit "a" 1], [Pat.lit "a" 1]])
      { name := "main", nameSpan := 0, params := [],
        variants := [[Pat.lit "a" 1], [Pat.lit "a" 1]] }
      0 1 rfl rfl rfl rfl rfl (by simp [oneRuleGrammar]) (by omega) (by simp) rfl
  · exact (shadowing_detection builtinsFixture).2.1
      (oneRuleGrammar [[Pat.lit "a" 1], [Pat.lit "a" 1, Pat.lit "b" 2]])
      { name := "main", nameSpan := 0, params := [],
        variants := [[Pat.lit "a" 1], [Pat.lit "a" 1, Pat.lit "b" 2]] }
      0 1 [Pat.lit "b" 2] rfl rfl rfl rfl rfl (by simp [oneRuleGrammar]) (by omega)
      (by simp) (by simp) rfl
  · exact (shadowing_detection builtinsFixture).2.2 "test" "main" 0
      [Pat.lit "a" 1] [Pat.lit "b" 2] (by simp) rfl rfl rfl

end WinnowGrammar
